import Mathlib

/-!
Verification of the drift-detection engine of `firefly-drift-detector`.

The repository contains two detectors:

* the reflection-based `Detector` of `internal/detector` (source file
  `src/unnamed/part_010`), operating on `internal/models.InstanceConfig`;
* the `DriftDetector` domain service of
  `src/domain/services/detection_service.go`, operating on
  `domain/models.Instance`, together with `DefaultDetectionService`
  (`DetectDrift` / `BatchDetectDrift`) and the `DriftReport` aggregate of
  `src/domain/models/terraform_state.go`.

Both detectors walk Go values through `reflect`.  The embedding models the
universe of Go values that can occur in those walks as the inductive `GoVal`
(strings, ints, bools, pointers, `map[string]string`, structs, slices); a Go
map is modelled as an association list whose list order stands for the
(unspecified) Go map iteration order.  `reflect.Value`'s "invalid" (zero)
value is modelled as `none : Option GoVal`.  `reflect.DeepEqual` is modelled
by decidable equality of `GoVal`, which agrees with it on every comparison
the two detectors can reach (no nil-vs-empty map or slice is ever
`DeepEqual`-compared by them; see the comments at the use sites).
-/

/-- `models.SecurityGroup` (identical in `internal/models/instance.go` and in
`domain/models` inside `terraform_state.go`): `GroupID`, `GroupName`. -/
structure SecurityGroup where
  groupID : String
  groupName : String
deriving DecidableEq, Repr

/-- The universe of Go values reachable by the two detectors' reflection
walks.  `vPtr none` is a nil pointer; `vStrMap` is a `map[string]string`
as an association list in iteration order; `vStruct` is a struct as its
ordered field list (Go declaration order); `vSlice` is a slice. -/
inductive GoVal : Type where
  | vStr (s : String)
  | vInt (n : Int)
  | vBool (b : Bool)
  | vPtr (o : Option GoVal)
  | vStrMap (m : List (String × String))
  | vStruct (fs : List (String × GoVal))
  | vSlice (xs : List GoVal)
deriving Repr

mutual

/-- Structural (deep) equality on `GoVal`, modelling `reflect.DeepEqual`
on the values the detectors compare. -/
def geq : GoVal → GoVal → Bool
  | .vStr a, .vStr b => a = b
  | .vInt a, .vInt b => a = b
  | .vBool a, .vBool b => a = b
  | .vPtr none, .vPtr none => true
  | .vPtr (some a), .vPtr (some b) => geq a b
  | .vStrMap a, .vStrMap b => a = b
  | .vStruct a, .vStruct b => geqFields a b
  | .vSlice a, .vSlice b => geqList a b
  | _, _ => false

def geqFields : List (String × GoVal) → List (String × GoVal) → Bool
  | [], [] => true
  | (n, v) :: r, (n2, v2) :: r2 => n = n2 && geq v v2 && geqFields r r2
  | _, _ => false

def geqList : List GoVal → List GoVal → Bool
  | [], [] => true
  | v :: r, v2 :: r2 => geq v v2 && geqList r r2
  | _, _ => false

end

mutual

theorem geq_iff : ∀ a b : GoVal, geq a b = true ↔ a = b
  | .vStr a, b => by cases b <;> simp [geq]
  | .vInt a, b => by cases b <;> simp [geq]
  | .vBool a, b => by cases b <;> simp [geq]
  | .vPtr none, b => by
    cases b with
    | vPtr o => cases o <;> simp [geq]
    | _ => simp [geq]
  | .vPtr (some a), b => by
    cases b with
    | vPtr o =>
      cases o with
      | none => simp [geq]
      | some b2 => simpa [geq] using geq_iff a b2
    | _ => simp [geq]
  | .vStrMap a, b => by cases b <;> simp [geq]
  | .vStruct a, b => by
    cases b with
    | vStruct b2 => simpa [geq] using geqFields_iff a b2
    | _ => simp [geq]
  | .vSlice a, b => by
    cases b with
    | vSlice b2 => simpa [geq] using geqList_iff a b2
    | _ => simp [geq]

theorem geqFields_iff : ∀ a b : List (String × GoVal), geqFields a b = true ↔ a = b
  | [], [] => by simp [geqFields]
  | [], _ :: _ => by simp [geqFields]
  | _ :: _, [] => by simp [geqFields]
  | (n, v) :: r, (n2, v2) :: r2 => by
    simp only [geqFields, Bool.and_eq_true, decide_eq_true_eq, List.cons.injEq,
      Prod.mk.injEq, geq_iff v v2, geqFields_iff r r2] <;> tauto

theorem geqList_iff : ∀ a b : List GoVal, geqList a b = true ↔ a = b
  | [], [] => by simp [geqList]
  | [], _ :: _ => by simp [geqList]
  | _ :: _, [] => by simp [geqList]
  | v :: r, v2 :: r2 => by
    simp only [geqList, Bool.and_eq_true, List.cons.injEq,
      geq_iff v v2, geqList_iff r r2]

end

instance : DecidableEq GoVal := fun a b =>
  decidable_of_iff (geq a b = true) (geq_iff a b)

/-- A `reflect.Value` that may be invalid (`reflect.Value{}` / zero value):
`none` is invalid, `some v` is a valid value.  `safeInterface` of part_010
maps an invalid value to the nil interface, so `Option GoVal` is also the
model of the `interface{}` attachments carried by drifts. -/
abbrev RVal := Option GoVal

/-- Go map lookup `m[k]` on the association-list model. -/
def lookupS {α : Type} : List (String × α) → String → Option α
  | [], _ => none
  | (k2, v) :: rest, k => if k2 = k then some v else lookupS rest k

/-- Go map assignment `m[k] = v` on the association-list model: replaces the
value at an existing key in place, otherwise appends the binding. -/
def mapInsert {α : Type} : List (String × α) → String → α → List (String × α)
  | [], k, v => [(k, v)]
  | (k2, v2) :: rest, k, v =>
    if k2 = k then (k2, v) :: rest else (k2, v2) :: mapInsert rest k v

theorem lookupS_sizeOf_le {α : Type} [SizeOf α] (fs : List (String × α)) (k : String) :
    sizeOf (lookupS fs k) ≤ 1 + sizeOf fs := by
  induction fs with
  | nil => simp [lookupS]
  | cons hd tl ih =>
    obtain ⟨n, v⟩ := hd
    by_cases h : n = k <;> simp [lookupS, h] <;> omega

theorem lookupS_mem {α : Type} {fs : List (String × α)} {k : String} {v : α}
    (h : lookupS fs k = some v) : (k, v) ∈ fs := by
  induction fs with
  | nil => simp [lookupS] at h
  | cons hd tl ih =>
    obtain ⟨n, w⟩ := hd
    by_cases hn : n = k
    · subst hn
      simp only [lookupS, if_pos] at h
      simp only [Option.some.injEq] at h
      subst h
      exact List.mem_cons_self _ _
    · simp only [lookupS, if_neg hn] at h
      exact List.mem_cons_of_mem _ (ih h)

theorem lookupS_self {α : Type} {fs : List (String × α)} {n : String} {v : α}
    (hmem : (n, v) ∈ fs) (hnd : (fs.map Prod.fst).Nodup) : lookupS fs n = some v := by
  induction fs with
  | nil => simp at hmem
  | cons hd tl ih =>
    obtain ⟨m, w⟩ := hd
    rw [List.map_cons, List.nodup_cons] at hnd
    rcases List.mem_cons.mp hmem with h | h
    · injection h with h1 h2
      subst h1; subst h2
      simp [lookupS]
    · have hne : m ≠ n := by
        intro e
        subst e
        exact hnd.1 (List.mem_map.mpr ⟨(m, v), h, rfl⟩)
      simp only [lookupS, if_neg hne]
      exact ih h hnd.2

theorem mapInsert_mem {α : Type} {m : List (String × α)} {k k2 : String} {v v2 : α}
    (h : (k2, v2) ∈ mapInsert m k v) : (k2, v2) ∈ m ∨ (k2, v2) = (k, v) := by
  induction m with
  | nil => simpa [mapInsert] using h
  | cons hd tl ih =>
    obtain ⟨n, w⟩ := hd
    by_cases hn : n = k
    · subst hn
      simp only [mapInsert, if_pos rfl] at h
      rcases List.mem_cons.mp h with h2 | h2
      · right
        injection h2 with h3 h4
        simp [h3, h4]
      · left
        exact List.mem_cons_of_mem _ h2
    · simp only [mapInsert, if_neg hn] at h
      rcases List.mem_cons.mp h with h2 | h2
      · left
        simp [h2]
      · rcases ih h2 with h3 | h3
        · exact Or.inl (List.mem_cons_of_mem _ h3)
        · exact Or.inr h3

theorem mapInsert_keys_nodup {α : Type} {m : List (String × α)} (k : String) (v : α)
    (hnd : (m.map Prod.fst).Nodup) : ((mapInsert m k v).map Prod.fst).Nodup := by
  induction m with
  | nil => simp [mapInsert]
  | cons hd tl ih =>
    obtain ⟨n, w⟩ := hd
    rw [List.map_cons, List.nodup_cons] at hnd
    by_cases hn : n = k
    · subst hn
      simpa [mapInsert] using hnd
    · rw [mapInsert, if_neg hn, List.map_cons, List.nodup_cons]
      refine ⟨fun hmem => ?_, ih hnd.2⟩
      rcases List.mem_map.mp hmem with ⟨⟨k3, v3⟩, h3, h4⟩
      have hk3 : k3 = n := h4
      rcases mapInsert_mem h3 with h5 | h5
      · exact hnd.1 (List.mem_map.mpr ⟨(k3, v3), h5, h4⟩)
      · injection h5 with h6 h7
        exact hn (hk3.symm.trans h6)

theorem lookupS_mapInsert_self {α : Type} (m : List (String × α)) (k : String) (v : α) :
    lookupS (mapInsert m k v) k = some v := by
  induction m with
  | nil => simp [mapInsert, lookupS]
  | cons hd tl ih =>
    obtain ⟨n, w⟩ := hd
    by_cases hn : n = k
    · subst hn
      simp [mapInsert, lookupS]
    · simp [mapInsert, lookupS, hn, ih]

theorem lookupS_mapInsert_ne {α : Type} (m : List (String × α)) (k k2 : String) (v : α)
    (hne : k ≠ k2) : lookupS (mapInsert m k v) k2 = lookupS m k2 := by
  induction m with
  | nil => simp [mapInsert, lookupS, hne]
  | cons hd tl ih =>
    obtain ⟨n, w⟩ := hd
    by_cases hn : n = k
    · subst hn
      simp [mapInsert, lookupS, hne]
    · by_cases hn2 : n = k2
      · subst hn2
        simp [mapInsert, lookupS, hn, hne.symm]
      · simp [mapInsert, lookupS, hn, hn2, ih]

/-- Positivity of list sizes (used in termination bounds). -/
theorem list_sizeOf_pos {α : Type} [SizeOf α] (l : List α) : 1 ≤ sizeOf l := by
  cases l <;> simp <;> omega

/-- A list member's size is at least two below the list's size. -/
theorem sizeOf_of_mem {α : Type} [SizeOf α] {x : α} {l : List α} (h : x ∈ l) :
    sizeOf x + 2 ≤ sizeOf l := by
  induction l with
  | nil => simp at h
  | cons hd tl ih =>
    rcases List.mem_cons.mp h with h2 | h2
    · subst h2
      have := list_sizeOf_pos tl
      simp
      omega
    · have := ih h2
      have hhd : 0 ≤ sizeOf hd := Nat.zero_le _
      simp
      omega

/-- `DriftType` — declared identically in `internal/detector` (part_010) and
`domain/models` (terraform_state.go): ADDED / REMOVED / MODIFIED.  Per the
source comments, ADDED means the field exists in actual but not in expected,
REMOVED the reverse, MODIFIED both present but different. -/
inductive DriftType : Type where
  | added
  | removed
  | modified
deriving DecidableEq, Repr

/-- `detector.Drift` of part_010: Type, Path, Actual, Expected, Description.
`Actual`/`Expected` are `interface{}` values (`none` models a nil / omitted
interface). -/
structure DetDrift where
  type : DriftType
  path : String
  actual : RVal := none
  expected : RVal := none
  description : String
deriving DecidableEq, Repr

/-- `detector.DriftReport` of part_010: InstanceID, HasDrift, Drifts. -/
structure DetReport where
  instanceID : String
  hasDrift : Bool
  drifts : List DetDrift
deriving DecidableEq, Repr

/-- Abstract stand-in for Go's `fmt.Sprintf("%v", x)` rendering of an
attached value inside a human-readable description.  `%v` of a plain string,
int or bool is rendered exactly; the fmt layout of compound values (maps,
structs, slices, pointers) is not modelled — no claim depends on it. -/
def showV : RVal → String
  | none => "<nil>"
  | some (.vStr s) => s
  | some (.vInt n) => toString n
  | some (.vBool b) => if b then "true" else "false"
  | some (.vPtr _) => "<ptr>"
  | some (.vStrMap _) => "<map>"
  | some (.vStruct _) => "<struct>"
  | some (.vSlice _) => "<slice>"

/-- Pointer dereference step of part_010 `compareStruct` (lines 129–135):
`if v.Kind() == reflect.Ptr { v = v.Elem() }`.  `Elem` of a nil pointer is
the invalid value. -/
def deref : GoVal → RVal
  | .vPtr o => o
  | v => some v

/-- Part_010 lines 159–166: `expectedField = expected.FieldByName(name)` when
`expected` is a valid struct, otherwise the zero `reflect.Value`.
`FieldByName` of a missing name is also the zero value. -/
def fieldByName (e : RVal) (n : String) : RVal :=
  match e with
  | some (.vStruct efs) => lookupS efs n
  | _ => none

theorem deref_sizeOf_le (v : GoVal) : sizeOf (deref v) ≤ 1 + sizeOf v := by
  cases v <;> simp [deref] <;> omega

theorem fieldByName_sizeOf_le (e : RVal) (n : String) :
    sizeOf (fieldByName e n) ≤ sizeOf e := by
  match e with
  | none => simp [fieldByName]
  | some (.vStruct efs) =>
    have := lookupS_sizeOf_le efs n
    simp [fieldByName]
    omega
  | some (.vStr s) => simp [fieldByName] <;> omega
  | some (.vInt m) => simp [fieldByName] <;> omega
  | some (.vBool b) => simp [fieldByName] <;> omega
  | some (.vPtr o) => simp [fieldByName] <;> omega
  | some (.vStrMap m) => simp [fieldByName] <;> omega
  | some (.vSlice xs) => simp [fieldByName] <;> omega

/-- The identity of an indexed struct element in `compareStructSlices`:
its first field's string value (part_010 lines 451–455).  Entries stored by
`structIndex` always have a string-valued first field, so the default `""`
is never read back out. -/
def idOf : List (String × GoVal) → String
  | (_, .vStr s) :: _ => s
  | _ => ""

/-- Insertion into the identity-keyed index (`actualMap[id] = elem`):
replaces the entry with the same identity in place, else appends. -/
def idxInsert : List (List (String × GoVal)) → List (String × GoVal) →
    List (List (String × GoVal))
  | [], fs => [fs]
  | g :: rest, fs => if idOf g = idOf fs then fs :: rest else g :: idxInsert rest fs

/-- Does a struct's field list start with a string-valued field?
(part_010 lines 451–453: `NumField() > 0` and `Field(0).Kind() == String`). -/
def firstIsString : List (String × GoVal) → Bool
  | (_, .vStr _) :: _ => true
  | _ => false

/-- Element preprocessing of part_010 lines 446–456: dereference a pointer
element, require a struct whose first field is a string; anything else is
silently skipped (not indexed).  (A nil-pointer or non-struct element would
make Go panic at `NumField`; `compareStructSlices` is only entered when the
elements are structs, so those cases are unreachable and modelled as
skipped.) -/
def elemFields (v : GoVal) : Option (List (String × GoVal)) :=
  match (match v with | .vPtr o => o | w => some w) with
  | some (.vStruct fs) => if firstIsString fs then some fs else none
  | _ => none

/-- The identity-keyed index of a slice's elements (part_010 lines 442–471),
keyed by each element's first (string) field; later duplicates overwrite. -/
def structIndex (elems : List GoVal) : List (List (String × GoVal)) :=
  elems.foldl (fun m v => match elemFields v with | some fs => idxInsert m fs | none => m) []

/-- Index lookup by identity. -/
def lookupIdx : List (List (String × GoVal)) → String → Option (List (String × GoVal))
  | [], _ => none
  | fs :: rest, k => if idOf fs = k then some fs else lookupIdx rest k

theorem lookupIdx_mem {idx : List (List (String × GoVal))} {k : String}
    {fs : List (String × GoVal)} (h : lookupIdx idx k = some fs) : fs ∈ idx := by
  induction idx with
  | nil => simp [lookupIdx] at h
  | cons hd tl ih =>
    by_cases hk : idOf hd = k
    · simp only [lookupIdx, if_pos hk, Option.some.injEq] at h
      subst h
      exact List.mem_cons_self _ _
    · simp only [lookupIdx, if_neg hk] at h
      exact List.mem_cons_of_mem _ (ih h)

theorem idxInsert_sizeOf_le (m : List (List (String × GoVal))) (fs : List (String × GoVal)) :
    sizeOf (idxInsert m fs) ≤ sizeOf m + 1 + sizeOf fs := by
  induction m with
  | nil => simp [idxInsert] <;> omega
  | cons g rest ih =>
    by_cases hg : idOf g = idOf fs
    · simp [idxInsert, hg]
      omega
    · simp [idxInsert, hg]
      omega

theorem elemFields_sizeOf {v : GoVal} {fs : List (String × GoVal)}
    (h : elemFields v = some fs) : sizeOf fs + 1 ≤ sizeOf v := by
  cases v with
  | vStr s => simp [elemFields] at h
  | vInt n => simp [elemFields] at h
  | vBool b => simp [elemFields] at h
  | vStrMap m => simp [elemFields] at h
  | vSlice xs => simp [elemFields] at h
  | vStruct gs =>
    by_cases hf : firstIsString gs = true
    · simp only [elemFields, if_pos hf, Option.some.injEq] at h
      subst h
      simp
      omega
    · simp [elemFields, hf] at h
  | vPtr o =>
    cases o with
    | none => simp [elemFields] at h
    | some w =>
      cases w with
      | vStr s => simp [elemFields] at h
      | vInt n => simp [elemFields] at h
      | vBool b => simp [elemFields] at h
      | vStrMap m => simp [elemFields] at h
      | vSlice xs => simp [elemFields] at h
      | vPtr o2 => simp [elemFields] at h
      | vStruct gs =>
        by_cases hf : firstIsString gs = true
        · simp only [elemFields, if_pos hf, Option.some.injEq] at h
          subst h
          simp
          omega
        · simp [elemFields, hf] at h

theorem structIndex_sizeOf_le (elems : List GoVal) :
    sizeOf (structIndex elems) ≤ sizeOf elems := by
  have key : ∀ (l : List GoVal) (acc : List (List (String × GoVal))),
      sizeOf (l.foldl (fun m v => match elemFields v with
        | some fs => idxInsert m fs | none => m) acc) + 1 ≤ sizeOf acc + sizeOf l := by
    intro l
    induction l with
    | nil =>
      intro acc
      simp <;> omega
    | cons v rest ih =>
      intro acc
      have hstep : sizeOf (match elemFields v with
          | some fs => idxInsert acc fs | none => acc) ≤ sizeOf acc + sizeOf v := by
        match hef : elemFields v with
        | some fs =>
          have h1 := idxInsert_sizeOf_le acc fs
          have h2 := elemFields_sizeOf hef
          simp only
          omega
        | none => simp
      have := ih (match elemFields v with | some fs => idxInsert acc fs | none => acc)
      simp only [List.foldl_cons]
      simp at this ⊢
      omega
  have := key elems []
  simp only [structIndex]
  simp at this
  omega

/-- Part_010 `compareMaps` (lines 193–317).  `am` is the actual map (the
caller reaches this case only with a map value).  The `prefix == "Tags"`
branch type-asserts both sides to `map[string]string`; in this model every
map is a `map[string]string`, so the assertion on the actual side always
succeeds (as it does in Go for `InstanceConfig.Tags`), and on the expected
side it fails exactly when the expected value is not a map.  `expected`
invalid would make Go panic at `expected.Interface()` (unreachable from
`DetectDrift`, where both sides are the same struct type); that case
returns `[]`.  The generic (non-"Tags") branch first checks `IsNil` on both
maps in Go (lines 256–274); `InstanceConfig`'s only map field is `Tags`, so
the generic branch is unreachable from `DetectDrift` and map nil-ness is
not modelled. -/
def compareMaps (pre : String) (am : List (String × String)) (e : RVal) : List DetDrift :=
  if pre = "Tags" then
    match e with
    | some (.vStrMap em) =>
      (em.flatMap fun kv =>
        match lookupS am kv.1 with
        | some av =>
          if av ≠ kv.2 then
            [{ type := .modified, path := pre ++ "[" ++ kv.1 ++ "]",
               actual := some (.vStr av), expected := some (.vStr kv.2),
               description := "Tag " ++ kv.1 ++ " has changed. Actual: " ++ av
                 ++ ", Expected: " ++ kv.2 }]
          else []
        | none =>
          [{ type := .removed, path := pre ++ "[" ++ kv.1 ++ "]",
             expected := some (.vStr kv.2),
             description := "Tag " ++ kv.1
               ++ " is present in expected but missing in actual" }])
      ++ (am.flatMap fun kv =>
        if (lookupS em kv.1).isSome then []
        else
          [{ type := .added, path := pre ++ "[" ++ kv.1 ++ "]",
             actual := some (.vStr kv.2),
             description := "Tag " ++ kv.1
               ++ " is present in actual but missing in expected" }])
    | some _ =>
      [{ type := .added, path := pre, actual := some (.vStrMap am),
         description := "Tags are present in actual but missing in expected" }]
    | none => []
  else
    match e with
    | some (.vStrMap em) =>
      (em.flatMap fun kv =>
        match lookupS am kv.1 with
        | none =>
          [{ type := .removed, path := pre ++ "." ++ kv.1,
             expected := some (.vStr kv.2),
             description := "Key " ++ kv.1
               ++ " is present in expected but missing in actual" }]
        | some av =>
          if av ≠ kv.2 then
            [{ type := .modified, path := pre ++ "." ++ kv.1,
               actual := some (.vStr av), expected := some (.vStr kv.2),
               description := "Value for key " ++ kv.1 ++ " has changed. Actual: "
                 ++ av ++ ", Expected: " ++ kv.2 }]
          else [])
      ++ (am.flatMap fun kv =>
        if (lookupS em kv.1).isSome then []
        else
          [{ type := .added, path := pre ++ "." ++ kv.1,
             actual := some (.vStr kv.2),
             description := "Key " ++ kv.1
               ++ " is present in actual but missing in expected" }])
    | _ => []

/-- The `[]models.SecurityGroup` view of a slice element: the type assertion
`.([]models.SecurityGroup)` succeeds exactly on slices of SecurityGroup
values, which this model encodes as `sgVal`-shaped structs. -/
def asSG : GoVal → Option SecurityGroup
  | .vStruct [("GroupID", .vStr i), ("GroupName", .vStr n)] => some ⟨i, n⟩
  | _ => none

/-- The encoding of a `models.SecurityGroup` value as a reflect struct. -/
def sgVal (sg : SecurityGroup) : GoVal :=
  .vStruct [("GroupID", .vStr sg.groupID), ("GroupName", .vStr sg.groupName)]

/-- The `[]models.SecurityGroup` type assertion on a whole value. -/
def asSGs : GoVal → Option (List SecurityGroup)
  | .vSlice l => l.mapM asSG
  | _ => none

/-- `actualMap` / `expectedMap` of the SecurityGroups branch (part_010
lines 345–355): a Go map keyed by `GroupID`; later duplicates overwrite. -/
def sgIndex (l : List SecurityGroup) : List (String × SecurityGroup) :=
  l.foldl (fun m sg => mapInsert m sg.groupID sg) []

/-- The SecurityGroups comparison of part_010 lines 345–391: match by
GroupID; matched pairs compare `GroupName` only; unmatched expected groups
are REMOVED, unmatched actual groups are ADDED. -/
def sgCompare (pre : String) (actualSGs expectedSGs : List SecurityGroup) : List DetDrift :=
  let actualMap := sgIndex actualSGs
  let expectedMap := sgIndex expectedSGs
  (expectedMap.flatMap fun p =>
    match lookupS actualMap p.1 with
    | some actualSG =>
      if actualSG.groupName ≠ p.2.groupName then
        [{ type := .modified, path := pre ++ "[" ++ p.1 ++ "].GroupName",
           actual := some (.vStr actualSG.groupName),
           expected := some (.vStr p.2.groupName),
           description := "Security group " ++ p.1 ++ " name has changed. Actual: "
             ++ actualSG.groupName ++ ", Expected: " ++ p.2.groupName }]
      else []
    | none =>
      [{ type := .removed, path := pre ++ "[" ++ p.1 ++ "]",
         expected := some (sgVal p.2),
         description := "Security group " ++ p.1
           ++ " is present in expected but missing in actual" }])
  ++ (actualMap.flatMap fun p =>
    if (lookupS expectedMap p.1).isSome then []
    else
      [{ type := .added, path := pre ++ "[" ++ p.1 ++ "]",
         actual := some (sgVal p.2),
         description := "Security group " ++ p.1
           ++ " is present in actual but missing in expected" }])

/-- Kind test and extractor for the struct case of the `Kind()` switch. -/
def isStructR : RVal → Bool
  | some (.vStruct _) => true
  | _ => false

def fieldsOf : RVal → List (String × GoVal)
  | some (.vStruct fs) => fs
  | _ => []

/-- Kind test and extractor for the map case of the `Kind()` switch. -/
def isMapR : RVal → Bool
  | some (.vStrMap _) => true
  | _ => false

def mapOf : RVal → List (String × String)
  | some (.vStrMap m) => m
  | _ => []

/-- Kind test and extractor for the slice case of the `Kind()` switch. -/
def isSliceR : RVal → Bool
  | some (.vSlice _) => true
  | _ => false

def elemsOf : RVal → List GoVal
  | some (.vSlice xs) => xs
  | _ => []

/-- `actual.Len() > 0 && actual.Index(0).Kind() == reflect.Struct`
(part_010 line 420). -/
def isStructHead : List GoVal → Bool
  | (.vStruct _) :: _ => true
  | _ => false

theorem fieldsOf_sizeOf {x : RVal} (h : isStructR x = true) :
    sizeOf (fieldsOf x) + 2 ≤ sizeOf x := by
  match x with
  | some (.vStruct fs) => simp [fieldsOf] <;> omega
  | none => simp [isStructR] at h
  | some (.vStr s) => simp [isStructR] at h
  | some (.vInt n) => simp [isStructR] at h
  | some (.vBool b) => simp [isStructR] at h
  | some (.vPtr o) => simp [isStructR] at h
  | some (.vStrMap m) => simp [isStructR] at h
  | some (.vSlice xs) => simp [isStructR] at h

theorem elemsOf_sizeOf {x : RVal} (h : isSliceR x = true) :
    sizeOf (elemsOf x) + 2 ≤ sizeOf x := by
  match x with
  | some (.vSlice xs) => simp [elemsOf] <;> omega
  | none => simp [isSliceR] at h
  | some (.vStr s) => simp [isSliceR] at h
  | some (.vInt n) => simp [isSliceR] at h
  | some (.vBool b) => simp [isSliceR] at h
  | some (.vPtr o) => simp [isSliceR] at h
  | some (.vStrMap m) => simp [isSliceR] at h
  | some (.vStruct fs) => simp [isSliceR] at h

theorem getIdx_mem {idx : List (List (String × GoVal))} {k : String}
    (h : (lookupIdx idx k).isSome = true) : (lookupIdx idx k).getD [] ∈ idx := by
  match hl : lookupIdx idx k with
  | some fs => simpa [hl] using lookupIdx_mem hl
  | none => rw [hl] at h; simp at h

mutual

/-- Part_010 `compareStruct` (lines 103–191).  Invalid-value handling (the
absent side is reported at once, without recursion into it), pointer
dereference, then dispatch on the kind of the (dereferenced) actual value:
struct fields, maps, slices, or the `DeepEqual` default case (which also
covers the invalid and pointer kinds).  `ign` is the detector's
`ignoredFields` set (empty for `NewDetector`). -/
def compareStruct (ign : String → Bool) (pre : String) (a e : RVal) : List DetDrift :=
  match a, e with
  | none, none => []
  | none, some ev =>
    [{ type := .removed, path := pre, expected := some ev,
       description := "Field " ++ pre ++ " is present in expected but missing in actual" }]
  | some av, none =>
    [{ type := .added, path := pre, actual := some av,
       description := "Field " ++ pre ++ " is present in actual but missing in expected" }]
  | some av, some ev =>
    if hS : isStructR (deref av) then
      cmpFields ign pre (fieldsOf (deref av)) (deref ev)
    else if isMapR (deref av) then
      compareMaps pre (mapOf (deref av)) (deref ev)
    else if hL : isSliceR (deref av) then
      compareSlices ign pre (elemsOf (deref av)) (deref ev)
    else
      if deref av = deref ev then []
      else
        [{ type := .modified, path := pre, actual := deref av, expected := deref ev,
           description := "Field " ++ pre ++ " has different values. Actual: "
             ++ showV (deref av) ++ ", Expected: " ++ showV (deref ev) }]
termination_by 3 * sizeOf a + 2 * sizeOf e
decreasing_by
  · have h1 := fieldsOf_sizeOf hS
    have h2 := deref_sizeOf_le av
    have h3 := deref_sizeOf_le ev
    simp at h1 h2 h3 ⊢
    omega
  · have h1 := elemsOf_sizeOf hL
    have h2 := deref_sizeOf_le av
    have h3 := deref_sizeOf_le ev
    simp at h1 h2 h3 ⊢
    omega

/-- The field loop of part_010 lines 140–169: walk the actual struct's
fields in declaration order; the field path extends `pre` with a dot unless
at the root; ignored paths are skipped; the expected side is looked up by
field name.  (`CanInterface` never fails here: every field of the model
structs is exported.) -/
def cmpFields (ign : String → Bool) (pre : String) (fs : List (String × GoVal))
    (e : RVal) : List DetDrift :=
  match fs with
  | [] => []
  | (fieldName, av) :: rest =>
    (if ign (if pre = "" then fieldName else pre ++ "." ++ fieldName) then []
     else compareStruct ign (if pre = "" then fieldName else pre ++ "." ++ fieldName)
       (some av) (fieldByName e fieldName))
    ++ cmpFields ign pre rest e
termination_by 3 * sizeOf fs + 2 * sizeOf e
decreasing_by
  · have h1 := fieldByName_sizeOf_le e fieldName
    simp at h1 ⊢
    omega
  · simp <;> omega

/-- Part_010 `compareSlices` (lines 319–437): the "SecurityGroups" branch
with its `[]models.SecurityGroup` type assertions and identity matching;
otherwise empty-side whole-slice drifts, identity matching for slices of
structs, or whole-slice `DeepEqual`.  An invalid or non-slice expected value
would panic in Go (`expected.Interface()` on the zero value, or
`expected.Len()`): unreachable from `DetectDrift`, modelled as `[]`. -/
def compareSlices (ign : String → Bool) (pre : String) (xs : List GoVal)
    (e : RVal) : List DetDrift :=
  if pre = "SecurityGroups" then
    match xs.mapM asSG with
    | some actualSGs =>
      match e with
      | none => []
      | some ev =>
        match asSGs ev with
        | some expectedSGs => sgCompare pre actualSGs expectedSGs
        | none =>
          [{ type := .added, path := pre, actual := some (.vSlice xs),
             description := "Security groups are present in actual but missing in expected" }]
    | none =>
      match e with
      | none => []
      | some ev =>
        match asSGs ev with
        | some expectedSGs =>
          [{ type := .removed, path := pre, expected := some ev,
             description := "Security groups are present in expected but missing in actual" }]
        | none => []
  else
    if hE : isSliceR e then
      if xs.length = 0 && (elemsOf e).length = 0 then []
      else if xs.length = 0 then
        [{ type := .removed, path := pre, expected := e,
           description := "Slice " ++ pre ++ " is present in expected but empty in actual" }]
      else if (elemsOf e).length = 0 then
        [{ type := .added, path := pre, actual := some (.vSlice xs),
           description := "Slice " ++ pre ++ " is present in actual but empty in expected" }]
      else if isStructHead xs then
        compareStructSlices ign pre xs (elemsOf e)
      else
        if xs = elemsOf e then []
        else
          [{ type := .modified, path := pre, actual := some (.vSlice xs),
             expected := e,
             description := "Slice " ++ pre ++ " has different values. Actual: "
               ++ showV (some (.vSlice xs)) ++ ", Expected: " ++ showV e }]
    else []
termination_by 3 * sizeOf xs + 2 * sizeOf e
decreasing_by
  have h1 := elemsOf_sizeOf hE
  simp at h1 ⊢
  omega

/-- Part_010 `compareStructSlices` (lines 439–502): index both slices by
each element's first (string) field, recurse on matched identities, report
expected-only identities as REMOVED and actual-only identities as ADDED. -/
def compareStructSlices (ign : String → Bool) (pre : String)
    (aElems eElems : List GoVal) : List DetDrift :=
  cmpMatched ign pre (structIndex aElems) (structIndex eElems)
  ++ (structIndex aElems).flatMap (fun aFs =>
    if (lookupIdx (structIndex eElems) (idOf aFs)).isSome then []
    else
      [{ type := .added, path := pre ++ "[" ++ idOf aFs ++ "]",
         actual := some (.vStruct aFs),
         description := "Item with ID " ++ idOf aFs
           ++ " is present in actual but missing in expected" }])
termination_by 3 * sizeOf aElems + 2 * sizeOf eElems + 3
decreasing_by
  have h1 := structIndex_sizeOf_le aElems
  have h2 := structIndex_sizeOf_le eElems
  simp
  omega

/-- The matched/removed loop of part_010 lines 474–487, walking the
expected-side index (`for id, expectedItem := range expectedMap`) and
looking each identity up in the actual-side index (comma-ok lookup). -/
def cmpMatched (ign : String → Bool) (pre : String)
    (aIdx eWalk : List (List (String × GoVal))) : List DetDrift :=
  match eWalk with
  | [] => []
  | eFs :: rest =>
    (if hF : (lookupIdx aIdx (idOf eFs)).isSome then
       compareStruct ign (pre ++ "[" ++ idOf eFs ++ "]")
         (some (.vStruct ((lookupIdx aIdx (idOf eFs)).getD [])))
         (some (.vStruct eFs))
     else
       [{ type := .removed, path := pre ++ "[" ++ idOf eFs ++ "]",
          expected := some (.vStruct eFs),
          description := "Item with ID " ++ idOf eFs
            ++ " is present in expected but missing in actual" }])
    ++ cmpMatched ign pre aIdx rest
termination_by 3 * sizeOf aIdx + 2 * sizeOf eWalk + 2
decreasing_by
  · have h1 := sizeOf_of_mem (getIdx_mem hF)
    have h2 := list_sizeOf_pos rest
    simp at h1 ⊢
    omega
  · simp <;> omega

end

/-- `models.CreditSpecification` (internal/models/instance.go). -/
structure CreditSpecification where
  cpuCredits : String
deriving DecidableEq, Repr

/-- `models.HibernationOptions`. -/
structure HibernationOptions where
  configured : Bool
deriving DecidableEq, Repr

/-- `models.EnclaveOptions`. -/
structure EnclaveOptions where
  enabled : Bool
deriving DecidableEq, Repr

/-- `models.MetadataOptions`. -/
structure MetadataOptions where
  httpEndpoint : String
  httpTokens : String
  httpPutResponseHopLimit : Option Int
  instanceMetadataTags : String
deriving DecidableEq, Repr

/-- `models.LaunchTemplateSpecification`. -/
structure LaunchTemplateSpecification where
  id : String
  name : String
  version : String
deriving DecidableEq, Repr

/-- `models.Timeouts`. -/
structure Timeouts where
  create : String
  update : String
  delete : String
deriving DecidableEq, Repr

/-- `models.EBSBlockDevice`. -/
structure EBSBlockDevice where
  deviceName : String
  snapshotID : String
  volumeType : String
  volumeSize : Option Int
  iops : Option Int
  deleteOnTermination : Option Bool
  encrypted : Option Bool
  kmsKeyID : String
  throughput : Option Int
deriving DecidableEq, Repr

/-- `models.EphemeralBlockDevice`. -/
structure EphemeralBlockDevice where
  deviceName : String
  noDevice : Option Bool
  virtualName : String
deriving DecidableEq, Repr

/-- `models.NetworkInterface`. -/
structure NetworkInterface where
  deviceIndex : Int
  networkInterfaceID : String
  deleteOnTermination : Option Bool
  networkCardIndex : Int
deriving DecidableEq, Repr

/-- `internal/models.InstanceConfig` (instance.go lines 4–69), all fields in
Go declaration order.  A `*bool` / `*int` field is an `Option`; a pointer to
a struct is an `Option` of the struct; `[]*T` is a list of options of `T`;
`Tags` is the association-list model of `map[string]string`. -/
structure InstanceConfig where
  instanceID : String
  instanceType : String
  ami : String
  keyName : String
  tags : List (String × String)
  vpcID : String
  subnetID : String
  securityGroups : List SecurityGroup
  publicIPAddress : String
  privateIPAddress : String
  associatePublicIPAddress : Option Bool
  sourceDestCheck : Option Bool
  privateDNSName : String
  publicDNSName : String
  rootVolumeSize : Int
  rootVolumeType : String
  rootVolumeIops : Int
  rootVolumeThroughput : Int
  rootVolumeEncrypted : Option Bool
  rootVolumeKMSKeyID : String
  ebsOptimized : Option Bool
  iamInstanceProfile : String
  monitoring : Option Bool
  availabilityZone : String
  tenancy : String
  hostID : String
  placementGroup : String
  cpuCoreCount : Option Int
  cpuThreadsPerCore : Option Int
  creditSpecification : Option CreditSpecification
  hibernation : Option HibernationOptions
  enclaveOptions : Option EnclaveOptions
  userData : String
  metadataOptions : Option MetadataOptions
  disableAPITermination : Option Bool
  instanceInitiatedShutdownBehavior : String
  launchTemplate : Option LaunchTemplateSpecification
  timeouts : Option Timeouts
  ebsBlockDevices : List (Option EBSBlockDevice)
  ephemeralBlockDevices : List (Option EphemeralBlockDevice)
  networkInterfaces : List (Option NetworkInterface)
deriving DecidableEq, Repr

/-- A `*bool` field as a reflect value. -/
def optBool (o : Option Bool) : GoVal := .vPtr (o.map .vBool)

/-- A `*int` field as a reflect value. -/
def optInt (o : Option Int) : GoVal := .vPtr (o.map .vInt)

def encodeCS (c : CreditSpecification) : GoVal :=
  .vStruct [("CPUCredits", .vStr c.cpuCredits)]

def encodeHib (h : HibernationOptions) : GoVal :=
  .vStruct [("Configured", .vBool h.configured)]

def encodeEnc (e : EnclaveOptions) : GoVal :=
  .vStruct [("Enabled", .vBool e.enabled)]

def encodeMO (m : MetadataOptions) : GoVal :=
  .vStruct [("HTTPEndpoint", .vStr m.httpEndpoint), ("HTTPTokens", .vStr m.httpTokens),
    ("HTTPPutResponseHopLimit", optInt m.httpPutResponseHopLimit),
    ("InstanceMetadataTags", .vStr m.instanceMetadataTags)]

def encodeLT (l : LaunchTemplateSpecification) : GoVal :=
  .vStruct [("ID", .vStr l.id), ("Name", .vStr l.name), ("Version", .vStr l.version)]

def encodeTO (t : Timeouts) : GoVal :=
  .vStruct [("Create", .vStr t.create), ("Update", .vStr t.update),
    ("Delete", .vStr t.delete)]

def encodeEBS (d : EBSBlockDevice) : GoVal :=
  .vStruct [("DeviceName", .vStr d.deviceName), ("SnapshotID", .vStr d.snapshotID),
    ("VolumeType", .vStr d.volumeType), ("VolumeSize", optInt d.volumeSize),
    ("Iops", optInt d.iops), ("DeleteOnTermination", optBool d.deleteOnTermination),
    ("Encrypted", optBool d.encrypted), ("KMSKeyID", .vStr d.kmsKeyID),
    ("Throughput", optInt d.throughput)]

def encodeEph (d : EphemeralBlockDevice) : GoVal :=
  .vStruct [("DeviceName", .vStr d.deviceName), ("NoDevice", optBool d.noDevice),
    ("VirtualName", .vStr d.virtualName)]

def encodeNI (d : NetworkInterface) : GoVal :=
  .vStruct [("DeviceIndex", .vInt d.deviceIndex),
    ("NetworkInterfaceID", .vStr d.networkInterfaceID),
    ("DeleteOnTermination", optBool d.deleteOnTermination),
    ("NetworkCardIndex", .vInt d.networkCardIndex)]

/-- A pointer-to-struct field as a reflect value. -/
def optStruct {α : Type} (enc : α → GoVal) (o : Option α) : GoVal := .vPtr (o.map enc)

/-- A `[]*T` field as a reflect value. -/
def ptrSlice {α : Type} (enc : α → GoVal) (l : List (Option α)) : GoVal :=
  .vSlice (l.map fun o => .vPtr (o.map enc))

/-- The reflect view `reflect.ValueOf(*c)` of an `InstanceConfig`, with the
Go field names in declaration order. -/
def encodeIC (c : InstanceConfig) : GoVal :=
  .vStruct [
    ("InstanceID", .vStr c.instanceID),
    ("InstanceType", .vStr c.instanceType),
    ("AMI", .vStr c.ami),
    ("KeyName", .vStr c.keyName),
    ("Tags", .vStrMap c.tags),
    ("VPCID", .vStr c.vpcID),
    ("SubnetID", .vStr c.subnetID),
    ("SecurityGroups", .vSlice (c.securityGroups.map sgVal)),
    ("PublicIPAddress", .vStr c.publicIPAddress),
    ("PrivateIPAddress", .vStr c.privateIPAddress),
    ("AssociatePublicIPAddress", optBool c.associatePublicIPAddress),
    ("SourceDestCheck", optBool c.sourceDestCheck),
    ("PrivateDNSName", .vStr c.privateDNSName),
    ("PublicDNSName", .vStr c.publicDNSName),
    ("RootVolumeSize", .vInt c.rootVolumeSize),
    ("RootVolumeType", .vStr c.rootVolumeType),
    ("RootVolumeIops", .vInt c.rootVolumeIops),
    ("RootVolumeThroughput", .vInt c.rootVolumeThroughput),
    ("RootVolumeEncrypted", optBool c.rootVolumeEncrypted),
    ("RootVolumeKMSKeyID", .vStr c.rootVolumeKMSKeyID),
    ("EBSOptimized", optBool c.ebsOptimized),
    ("IAMInstanceProfile", .vStr c.iamInstanceProfile),
    ("Monitoring", optBool c.monitoring),
    ("AvailabilityZone", .vStr c.availabilityZone),
    ("Tenancy", .vStr c.tenancy),
    ("HostID", .vStr c.hostID),
    ("PlacementGroup", .vStr c.placementGroup),
    ("CPUCoreCount", optInt c.cpuCoreCount),
    ("CPUThreadsPerCore", optInt c.cpuThreadsPerCore),
    ("CreditSpecification", optStruct encodeCS c.creditSpecification),
    ("Hibernation", optStruct encodeHib c.hibernation),
    ("EnclaveOptions", optStruct encodeEnc c.enclaveOptions),
    ("UserData", .vStr c.userData),
    ("MetadataOptions", optStruct encodeMO c.metadataOptions),
    ("DisableAPITermination", optBool c.disableAPITermination),
    ("InstanceInitiatedShutdownBehavior", .vStr c.instanceInitiatedShutdownBehavior),
    ("LaunchTemplate", optStruct encodeLT c.launchTemplate),
    ("Timeouts", optStruct encodeTO c.timeouts),
    ("EBSBlockDevices", ptrSlice encodeEBS c.ebsBlockDevices),
    ("EphemeralBlockDevices", ptrSlice encodeEph c.ephemeralBlockDevices),
    ("NetworkInterfaces", ptrSlice encodeNI c.networkInterfaces)]

/-- `NewDetector()` has an empty `ignoredFields` set. -/
def newDetectorIgnored : String → Bool := fun _ => false

/-- Part_010 `Detector.DetectDrift` (lines 54–93).  Nil handling: both nil
gives the freshly initialised empty report; exactly one nil gives one
MODIFIED drift at the empty path with no values attached and
`HasDrift = true`; otherwise the reflection walk over both structs, with
`HasDrift = (len(report.Drifts) > 0)`. -/
def DetectDrift (actual expected : Option InstanceConfig) : DetReport :=
  match actual, expected with
  | none, none => { instanceID := "", hasDrift := false, drifts := [] }
  | some a, none =>
    { instanceID := a.instanceID, hasDrift := true,
      drifts := [{ type := .modified, path := "",
                   description := "One of the configurations is nil" }] }
  | none, some e =>
    { instanceID := e.instanceID, hasDrift := true,
      drifts := [{ type := .modified, path := "",
                   description := "One of the configurations is nil" }] }
  | some a, some e =>
    let ds := compareStruct newDetectorIgnored "" (some (encodeIC a)) (some (encodeIC e))
    { instanceID := a.instanceID, hasDrift := decide (0 < ds.length), drifts := ds }

/-- `domain/models.Drift` (terraform_state.go lines 64–70). -/
structure MDrift where
  type : DriftType
  path : String
  actual : RVal := none
  expected : RVal := none
  description : String
deriving DecidableEq, Repr

/-- `models.NewDrift` (terraform_state.go lines 73–81). -/
def NewDrift (driftType : DriftType) (path : String) (actual expected : RVal)
    (description : String) : MDrift :=
  { type := driftType, path := path, actual := actual, expected := expected,
    description := description }

/-- `domain/models.DriftReport` (terraform_state.go lines 85–89). -/
structure MDriftReport where
  instanceID : String
  hasDrift : Bool
  drifts : List MDrift
deriving DecidableEq, Repr

/-- `models.NewDriftReport` (terraform_state.go lines 92–97): empty drift
list, `HasDrift` left at its zero value `false`. -/
def NewDriftReport (instanceID : String) : MDriftReport :=
  { instanceID := instanceID, hasDrift := false, drifts := [] }

/-- `DriftReport.AddDrift` (terraform_state.go lines 100–103): append the
drift and set `HasDrift = true`. -/
def AddDrift (r : MDriftReport) (d : MDrift) : MDriftReport :=
  { r with drifts := r.drifts ++ [d], hasDrift := true }

/-- `domain/models.Instance` (terraform_state.go lines 121–154), fields in
Go declaration order. -/
structure Instance where
  id : String
  type : String
  ami : String
  keyName : String
  tags : List (String × String)
  vpcID : String
  subnetID : String
  securityGroups : List SecurityGroup
  publicIPAddress : String
  privateIPAddress : String
  associatePublicIPAddress : Option Bool
  privateDNSName : String
  publicDNSName : String
  rootVolumeSize : Int
  rootVolumeType : String
  rootVolumeIops : Int
  rootVolumeEncrypted : Option Bool
  iamInstanceProfile : String
  monitoring : Option Bool
  availabilityZone : String
  tenancy : String
deriving DecidableEq, Repr

/-- The reflect view `reflect.ValueOf(inst).Elem()` of a `*models.Instance`,
with the Go field names in declaration order. -/
def encodeInstance (i : Instance) : GoVal :=
  .vStruct [
    ("ID", .vStr i.id),
    ("Type", .vStr i.type),
    ("AMI", .vStr i.ami),
    ("KeyName", .vStr i.keyName),
    ("Tags", .vStrMap i.tags),
    ("VPCID", .vStr i.vpcID),
    ("SubnetID", .vStr i.subnetID),
    ("SecurityGroups", .vSlice (i.securityGroups.map sgVal)),
    ("PublicIPAddress", .vStr i.publicIPAddress),
    ("PrivateIPAddress", .vStr i.privateIPAddress),
    ("AssociatePublicIPAddress", optBool i.associatePublicIPAddress),
    ("PrivateDNSName", .vStr i.privateDNSName),
    ("PublicDNSName", .vStr i.publicDNSName),
    ("RootVolumeSize", .vInt i.rootVolumeSize),
    ("RootVolumeType", .vStr i.rootVolumeType),
    ("RootVolumeIops", .vInt i.rootVolumeIops),
    ("RootVolumeEncrypted", optBool i.rootVolumeEncrypted),
    ("IAMInstanceProfile", .vStr i.iamInstanceProfile),
    ("Monitoring", optBool i.monitoring),
    ("AvailabilityZone", .vStr i.availabilityZone),
    ("Tenancy", .vStr i.tenancy)]

/-- The `reflect.Kind` of a modelled value. -/
inductive GoKind : Type where
  | str
  | int
  | bool
  | ptr
  | map
  | struct
  | slice
deriving DecidableEq, Repr

def kindOf : GoVal → GoKind
  | .vStr _ => .str
  | .vInt _ => .int
  | .vBool _ => .bool
  | .vPtr _ => .ptr
  | .vStrMap _ => .map
  | .vStruct _ => .struct
  | .vSlice _ => .slice

/-- `strings.TrimPrefix(p, ".")`: remove one leading dot. -/
def trimDot (p : String) : String :=
  if p.startsWith "." then p.drop 1 else p

/-- `DriftDetector.compareMaps` (detection_service.go lines 220–265).  The
first loop walks the actual map: a key absent from expected yields a
REMOVED drift carrying `nil, nil`; a present key with a different value
yields MODIFIED with both values.  The second loop adds an ADDED drift with
`nil, expectedValue` for every expected-only key.  (Go iterates the map's
keys and reads each value with `MapIndex`; an association list from a Go
map has unique keys, so each entry's own value is that `MapIndex` value.) -/
def ddCompareMaps (pre : String) (am em : List (String × String)) : List MDrift :=
  (am.flatMap fun kv =>
    match lookupS em kv.1 with
    | none => [NewDrift .removed (pre ++ "." ++ kv.1) none none "Field removed"]
    | some ev =>
      if kv.2 ≠ ev then
        [NewDrift .modified (pre ++ "." ++ kv.1) (some (.vStr kv.2)) (some (.vStr ev))
          "Value modified"]
      else [])
  ++ (em.flatMap fun kv =>
    if (lookupS am kv.1).isSome then []
    else [NewDrift .added (pre ++ "." ++ kv.1) none (some (.vStr kv.2)) "Field added"])

mutual

/-- `DriftDetector.compareStruct` (detection_service.go lines 167–217):
kind-mismatch check first (a MODIFIED "Type mismatch" drift), then the kind
switch — struct fields by index, maps, slices, and a `DeepEqual` default
whose path has a leading dot trimmed.  `ign2` is the detector's
`ignoredFields` set, keyed by bare field name (empty for
`NewDriftDetector`). -/
def ddCompareStruct (ign2 : String → Bool) (pre : String) (a e : GoVal) : List MDrift :=
  if kindOf a ≠ kindOf e then
    [NewDrift .modified pre (some a) (some e) "Type mismatch"]
  else
    match a, e with
    | .vStruct afs, .vStruct efs => ddCmpFields ign2 pre afs efs
    | .vStrMap am, .vStrMap em => ddCompareMaps pre am em
    | .vSlice axs, .vSlice exs => ddCompareSlices ign2 pre axs exs
    | a2, e2 =>
      if a2 = e2 then []
      else [NewDrift .modified (trimDot pre) (some a2) (some e2) "Value mismatch"]
termination_by 2 * (sizeOf a + sizeOf e) + 2
decreasing_by
  · simp <;> omega
  · simp <;> omega

/-- The field loop of detection_service.go lines 185–198: both sides are
read field-by-field at the same index (`actual.Field(i)` /
`expected.Field(i)`); the field path always extends `pre` with a dot; a
field whose bare name is in `ignoredFields` is skipped.  Both sides have
the same struct type in every reachable call, so the two field lists pair
up positionally. -/
def ddCmpFields (ign2 : String → Bool) (pre : String)
    (afs efs : List (String × GoVal)) : List MDrift :=
  match afs, efs with
  | (n, av) :: arest, (_, ev) :: erest =>
    (if ign2 n then [] else ddCompareStruct ign2 (pre ++ "." ++ n) av ev)
    ++ ddCmpFields ign2 pre arest erest
  | _, _ => []
termination_by 2 * (sizeOf afs + sizeOf efs) + 1
decreasing_by
  · simp <;> omega
  · simp <;> omega

/-- `DriftDetector.compareSlices` (detection_service.go lines 268–286):
different lengths yield exactly one MODIFIED "Length mismatch" drift at the
slice path carrying both whole slices and nothing else; equal lengths
compare index by index at `pre[i]`. -/
def ddCompareSlices (ign2 : String → Bool) (pre : String)
    (axs exs : List GoVal) : List MDrift :=
  if axs.length ≠ exs.length then
    [NewDrift .modified pre (some (.vSlice axs)) (some (.vSlice exs)) "Length mismatch"]
  else
    ddWalk ign2 pre 0 axs exs
termination_by 2 * (sizeOf axs + sizeOf exs) + 1
decreasing_by
  simp <;> omega

/-- The index loop of detection_service.go lines 283–285. -/
def ddWalk (ign2 : String → Bool) (pre : String) (i : Nat)
    (axs exs : List GoVal) : List MDrift :=
  match axs, exs with
  | av :: arest, ev :: erest =>
    ddCompareStruct ign2 (pre ++ "[" ++ toString i ++ "]") av ev
    ++ ddWalk ign2 pre (i + 1) arest erest
  | _, _ => []
termination_by 2 * (sizeOf axs + sizeOf exs)
decreasing_by
  · simp <;> omega
  · simp <;> omega

end

/-- `NewDriftDetector()` has an empty `ignoredFields` set. -/
def newDriftDetectorIgnored : String → Bool := fun _ => false

/-- `DriftDetector.CompareInstances` (detection_service.go lines 154–164):
a fresh report for the actual instance's ID, filled by the reflection walk
through `AddDrift`. -/
def CompareInstances (actual desired : Instance) : MDriftReport :=
  (ddCompareStruct newDriftDetectorIgnored "" (encodeInstance actual)
    (encodeInstance desired)).foldl AddDrift (NewDriftReport actual.id)

/-- `services.DomainError` (detection_service.go lines 113–125). -/
structure DomainError where
  msg : String
deriving DecidableEq, Repr

def ErrInvalidInput : DomainError := ⟨"invalid input parameters"⟩

def ErrInstanceMismatch : DomainError := ⟨"instance IDs do not match"⟩

/-- `DefaultDetectionService.DetectDrift` (detection_service.go lines
33–44): nil input gives `ErrInvalidInput`; differing IDs give
`ErrInstanceMismatch`; otherwise the comparison report with no error. -/
def ServiceDetectDrift (actual desired : Option Instance) :
    Except DomainError MDriftReport :=
  match actual, desired with
  | some a, some d =>
    if a.id ≠ d.id then .error ErrInstanceMismatch
    else .ok (CompareInstances a d)
  | _, _ => .error ErrInvalidInput

/-- The first loop of `BatchDetectDrift` (detection_service.go lines
60–79): for each actual instance, compare against the desired instance of
the same ID when one exists (an error would abort the whole batch — lines
63–65); an actual-only instance gets a report with one REMOVED drift
carrying no values. -/
def batchLoop1 (desiredMap : List (String × Instance))
    (reports : List (String × MDriftReport)) :
    List Instance → Except DomainError (List (String × MDriftReport))
  | [] => .ok reports
  | a :: rest =>
    match lookupS desiredMap a.id with
    | some d =>
      match ServiceDetectDrift (some a) (some d) with
      | .error e => .error e
      | .ok r => batchLoop1 desiredMap (mapInsert reports a.id r) rest
    | none =>
      batchLoop1 desiredMap
        (mapInsert reports a.id
          (AddDrift (NewDriftReport a.id)
            (NewDrift .removed "" none none
              "Instance exists in actual state but not in desired state")))
        rest

/-- The second loop of `BatchDetectDrift` (detection_service.go lines
82–94): every desired instance without a report yet gets one with a single
ADDED drift whose `actual` is nil and whose `expected` is the desired
instance pointer. -/
def batchLoop2 (reports : List (String × MDriftReport)) :
    List Instance → List (String × MDriftReport)
  | [] => reports
  | d :: rest =>
    if (lookupS reports d.id).isSome then batchLoop2 reports rest
    else
      batchLoop2
        (mapInsert reports d.id
          (AddDrift (NewDriftReport d.id)
            (NewDrift .added "" none (some (.vPtr (some (encodeInstance d))))
              "Instance exists in desired state but not in actual state")))
        rest

/-- `DefaultDetectionService.BatchDetectDrift` (detection_service.go lines
47–97): build the desired-by-ID map, run both loops, return the report map.
(The Go `reports` map is modelled as an association list; only lookups are
observable.) -/
def BatchDetectDrift (actual desired : List Instance) :
    Except DomainError (List (String × MDriftReport)) :=
  match batchLoop1 (desired.foldl (fun m inst => mapInsert m inst.id inst) []) [] actual with
  | .error e => .error e
  | .ok reports => .ok (batchLoop2 reports desired)

mutual

/-- Wellformedness of a modelled Go value: every struct has distinct field
names and every map has distinct keys.  Both hold for every value Go's
reflection can produce (field names are unique per struct type, map keys
are unique), so `WFv` carves out exactly the images of real Go values. -/
def WFv : GoVal → Prop
  | .vStr _ => True
  | .vInt _ => True
  | .vBool _ => True
  | .vPtr none => True
  | .vPtr (some v) => WFv v
  | .vStrMap m => (m.map Prod.fst).Nodup
  | .vStruct fs => (fs.map Prod.fst).Nodup ∧ WFfields fs
  | .vSlice xs => WFelems xs

def WFfields : List (String × GoVal) → Prop
  | [] => True
  | (_, v) :: r => WFv v ∧ WFfields r

def WFelems : List GoVal → Prop
  | [] => True
  | v :: r => WFv v ∧ WFelems r

end

theorem WFfields_mem {fs : List (String × GoVal)} (h : WFfields fs)
    {p : String × GoVal} (hp : p ∈ fs) : WFv p.2 := by
  induction fs with
  | nil => simp at hp
  | cons hd tl ih =>
    obtain ⟨m, w⟩ := hd
    have hh : WFv w ∧ WFfields tl := by simpa [WFfields] using h
    rcases List.mem_cons.mp hp with h2 | h2
    · rw [h2]
      exact hh.1
    · exact ih hh.2 h2

theorem WFelems_mem {xs : List GoVal} (h : WFelems xs) {x : GoVal} (hx : x ∈ xs) :
    WFv x := by
  induction xs with
  | nil => simp at hx
  | cons hd tl ih =>
    have hh : WFv hd ∧ WFelems tl := by simpa [WFelems] using h
    rcases List.mem_cons.mp hx with h2 | h2
    · rw [h2]
      exact hh.1
    · exact ih hh.2 h2

theorem idxInsert_mem2 {m : List (List (String × GoVal))} {fs g : List (String × GoVal)}
    (h : g ∈ idxInsert m fs) : g ∈ m ∨ g = fs := by
  induction m with
  | nil => simpa [idxInsert] using h
  | cons hd tl ih =>
    by_cases hk : idOf hd = idOf fs
    · simp only [idxInsert, if_pos hk] at h
      rcases List.mem_cons.mp h with h2 | h2
      · exact Or.inr h2
      · exact Or.inl (List.mem_cons_of_mem _ h2)
    · simp only [idxInsert, if_neg hk] at h
      rcases List.mem_cons.mp h with h2 | h2
      · exact Or.inl (h2 ▸ List.mem_cons_self _ _)
      · rcases ih h2 with h3 | h3
        · exact Or.inl (List.mem_cons_of_mem _ h3)
        · exact Or.inr h3

theorem idxInsert_idOf_nodup {m : List (List (String × GoVal))}
    (fs : List (String × GoVal)) (hnd : (m.map idOf).Nodup) :
    ((idxInsert m fs).map idOf).Nodup := by
  induction m with
  | nil => simp [idxInsert]
  | cons hd tl ih =>
    rw [List.map_cons, List.nodup_cons] at hnd
    by_cases hk : idOf hd = idOf fs
    · rw [idxInsert, if_pos hk, List.map_cons, List.nodup_cons]
      exact ⟨hk ▸ hnd.1, hnd.2⟩
    · rw [idxInsert, if_neg hk, List.map_cons, List.nodup_cons]
      refine ⟨fun hmem => ?_, ih hnd.2⟩
      rcases List.mem_map.mp hmem with ⟨g, hg, hg2⟩
      rcases idxInsert_mem2 hg with h3 | h3
      · exact hnd.1 (hg2 ▸ List.mem_map.mpr ⟨g, h3, rfl⟩)
      · exact hk (hg2 ▸ h3 ▸ rfl)

theorem structIndex_mem {xs : List GoVal} {fs : List (String × GoVal)}
    (h : fs ∈ structIndex xs) : ∃ x ∈ xs, elemFields x = some fs := by
  have key : ∀ (l : List GoVal) (acc : List (List (String × GoVal))),
      fs ∈ l.foldl (fun m v => match elemFields v with
        | some gs => idxInsert m gs | none => m) acc →
      fs ∈ acc ∨ ∃ x ∈ l, elemFields x = some fs := by
    intro l
    induction l with
    | nil =>
      intro acc h2
      exact Or.inl (by simpa using h2)
    | cons v rest ih =>
      intro acc h2
      rw [List.foldl_cons] at h2
      rcases ih _ h2 with h3 | h3
      · match hef : elemFields v with
        | some gs =>
          rw [hef] at h3
          rcases idxInsert_mem2 h3 with h4 | h4
          · exact Or.inl h4
          · exact Or.inr ⟨v, List.mem_cons_self _ _, h4 ▸ hef⟩
        | none =>
          rw [hef] at h3
          exact Or.inl h3
      · obtain ⟨x, hx, hx2⟩ := h3
        exact Or.inr ⟨x, List.mem_cons_of_mem _ hx, hx2⟩
  rcases key xs [] h with h2 | h2
  · simp at h2
  · exact h2

theorem structIndex_idOf_nodup (xs : List GoVal) :
    ((structIndex xs).map idOf).Nodup := by
  have key : ∀ (l : List GoVal) (acc : List (List (String × GoVal))),
      (acc.map idOf).Nodup →
      ((l.foldl (fun m v => match elemFields v with
        | some gs => idxInsert m gs | none => m) acc).map idOf).Nodup := by
    intro l
    induction l with
    | nil =>
      intro acc h
      simpa using h
    | cons v rest ih =>
      intro acc h
      rw [List.foldl_cons]
      refine ih _ ?_
      match hef : elemFields v with
      | some gs => exact idxInsert_idOf_nodup gs h
      | none => exact h
  exact key xs [] (by simp)

theorem lookupIdx_self {idx : List (List (String × GoVal))} {fs : List (String × GoVal)}
    (hmem : fs ∈ idx) (hnd : (idx.map idOf).Nodup) : lookupIdx idx (idOf fs) = some fs := by
  induction idx with
  | nil => simp at hmem
  | cons hd tl ih =>
    rw [List.map_cons, List.nodup_cons] at hnd
    rcases List.mem_cons.mp hmem with h | h
    · rw [h, lookupIdx, if_pos rfl]
    · have hne : idOf hd ≠ idOf fs := by
        intro e
        exact hnd.1 (e ▸ List.mem_map.mpr ⟨fs, h, rfl⟩)
      rw [lookupIdx, if_neg hne]
      exact ih h hnd.2

theorem sgIndex_nodup (l : List SecurityGroup) :
    ((sgIndex l).map Prod.fst).Nodup := by
  have key : ∀ (ll : List SecurityGroup) (acc : List (String × SecurityGroup)),
      (acc.map Prod.fst).Nodup →
      ((ll.foldl (fun m sg => mapInsert m sg.groupID sg) acc).map Prod.fst).Nodup := by
    intro ll
    induction ll with
    | nil =>
      intro acc h
      simpa using h
    | cons sg rest ih =>
      intro acc h
      rw [List.foldl_cons]
      exact ih _ (mapInsert_keys_nodup _ _ h)
  exact key l [] (by simp)

theorem compareMaps_self (pre : String) (m : List (String × String))
    (hnd : (m.map Prod.fst).Nodup) : compareMaps pre m (some (.vStrMap m)) = [] := by
  by_cases hp : pre = "Tags"
  · rw [compareMaps, if_pos hp]
    rw [List.append_eq_nil]
    constructor
    · refine List.bind_eq_nil.mpr fun kv hkv => ?_
      obtain ⟨k, v⟩ := kv
      rw [lookupS_self hkv hnd]
      simp
    · refine List.bind_eq_nil.mpr fun kv hkv => ?_
      obtain ⟨k, v⟩ := kv
      rw [lookupS_self hkv hnd]
      simp
  · rw [compareMaps, if_neg hp]
    rw [List.append_eq_nil]
    constructor
    · refine List.bind_eq_nil.mpr fun kv hkv => ?_
      obtain ⟨k, v⟩ := kv
      rw [lookupS_self hkv hnd]
      simp
    · refine List.bind_eq_nil.mpr fun kv hkv => ?_
      obtain ⟨k, v⟩ := kv
      rw [lookupS_self hkv hnd]
      simp

theorem sgCompare_self (pre : String) (l : List SecurityGroup) :
    sgCompare pre l l = [] := by
  rw [sgCompare]
  rw [List.append_eq_nil]
  constructor
  · refine List.bind_eq_nil.mpr fun p hp => ?_
    obtain ⟨k, sg⟩ := p
    rw [lookupS_self hp (sgIndex_nodup l)]
    simp
  · refine List.bind_eq_nil.mpr fun p hp => ?_
    obtain ⟨k, sg⟩ := p
    rw [lookupS_self hp (sgIndex_nodup l)]
    simp

theorem elemFields_WF {x : GoVal} {fs : List (String × GoVal)}
    (hx : elemFields x = some fs) (hwf : WFv x) : WFv (.vStruct fs) := by
  cases x with
  | vStr s => simp [elemFields] at hx
  | vInt n => simp [elemFields] at hx
  | vBool b => simp [elemFields] at hx
  | vStrMap m => simp [elemFields] at hx
  | vSlice xs => simp [elemFields] at hx
  | vStruct gs =>
    by_cases hf : firstIsString gs = true
    · simp only [elemFields, if_pos hf, Option.some.injEq] at hx
      exact hx ▸ hwf
    · simp [elemFields, hf] at hx
  | vPtr o =>
    cases o with
    | none => simp [elemFields] at hx
    | some w =>
      cases w with
      | vStr s => simp [elemFields] at hx
      | vInt n => simp [elemFields] at hx
      | vBool b => simp [elemFields] at hx
      | vStrMap m => simp [elemFields] at hx
      | vSlice xs => simp [elemFields] at hx
      | vPtr o2 => simp [elemFields] at hx
      | vStruct gs =>
        by_cases hf : firstIsString gs = true
        · simp only [elemFields, if_pos hf, Option.some.injEq] at hx
          have : WFv (GoVal.vStruct gs) := by simpa [WFv] using hwf
          exact hx ▸ this
        · simp [elemFields, hf] at hx

theorem cmpFields_nil (ign : String → Bool) (pre : String)
    (FS : List (String × GoVal)) :
    ∀ gs : List (String × GoVal),
      (∀ n v, (n, v) ∈ gs → lookupS FS n = some v) →
      (∀ n v, (n, v) ∈ gs → ∀ p2, compareStruct ign p2 (some v) (some v) = []) →
      cmpFields ign pre gs (some (.vStruct FS)) = [] := by
  intro gs
  induction gs with
  | nil =>
    intro _ _
    simp [cmpFields]
  | cons hd rest ih =>
    intro hlk hrec
    obtain ⟨nm, av⟩ := hd
    have h1 : fieldByName (some (.vStruct FS)) nm = some av := by
      simp [fieldByName, hlk nm av (List.mem_cons_self _ _)]
    rw [cmpFields, h1]
    rw [hrec nm av (List.mem_cons_self _ _)]
    rw [ih (fun n v hm => hlk n v (List.mem_cons_of_mem _ hm))
      (fun n v hm => hrec n v (List.mem_cons_of_mem _ hm))]
    simp

theorem cmpMatched_nil (ign : String → Bool) (pre : String)
    (idx : List (List (String × GoVal))) (hnd : (idx.map idOf).Nodup)
    (hrec : ∀ fs, fs ∈ idx → ∀ p2,
      compareStruct ign p2 (some (.vStruct fs)) (some (.vStruct fs)) = []) :
    ∀ walk : List (List (String × GoVal)), (∀ fs ∈ walk, fs ∈ idx) →
      cmpMatched ign pre idx walk = [] := by
  intro walk
  induction walk with
  | nil =>
    intro _
    simp [cmpMatched]
  | cons eFs rest ih =>
    intro hw
    have hmem : eFs ∈ idx := hw eFs (List.mem_cons_self _ _)
    have h1 : lookupIdx idx (idOf eFs) = some eFs := lookupIdx_self hmem hnd
    rw [cmpMatched, h1]
    simp only [Option.isSome_some, Option.getD_some, dite_true]
    rw [hrec eFs hmem, ih (fun fs hm => hw fs (List.mem_cons_of_mem _ hm))]
    simp

theorem compareSlices_nil (ign : String → Bool) (pre : String) (xs : List GoVal)
    (hrec : ∀ fs, fs ∈ structIndex xs → ∀ p2,
      compareStruct ign p2 (some (.vStruct fs)) (some (.vStruct fs)) = []) :
    compareSlices ign pre xs (some (.vSlice xs)) = [] := by
  by_cases hp : pre = "SecurityGroups"
  · rw [compareSlices, if_pos hp]
    match hm : xs.mapM asSG with
    | some sgs =>
      rw [List.mapM] at hm
      simp [asSGs, List.mapM, hm, sgCompare_self]
    | none =>
      rw [List.mapM] at hm
      simp [asSGs, List.mapM, hm]
  · rw [compareSlices, if_neg hp]
    have hS : isSliceR (some (.vSlice xs)) = true := by simp [isSliceR]
    rw [dif_pos hS]
    by_cases hlen : xs.length = 0
    · simp [elemsOf, hlen]
    · simp only [elemsOf, hlen]
      by_cases hh : isStructHead xs
      · simp only [hh, if_true, Bool.and_self, if_neg hlen]
        have h1 : cmpMatched ign pre (structIndex xs) (structIndex xs) = [] :=
          cmpMatched_nil ign pre (structIndex xs) (structIndex_idOf_nodup xs) hrec
            (structIndex xs) (fun _ h => h)
        have h2 : (structIndex xs).flatMap (fun aFs =>
            if (lookupIdx (structIndex xs) (idOf aFs)).isSome then []
            else [({ type := .added, path := pre ++ "[" ++ idOf aFs ++ "]",
                     actual := some (.vStruct aFs),
                     description := "Item with ID " ++ idOf aFs
                       ++ " is present in actual but missing in expected" } : DetDrift)]) = [] := by
          refine List.bind_eq_nil.mpr fun aFs hm => ?_
          rw [lookupIdx_self hm (structIndex_idOf_nodup xs)]
          simp
        simp [compareStructSlices, h1, h2]
      · simp [hh, hlen]

theorem compareStruct_self_aux (ign : String → Bool) :
    ∀ (n : Nat) (v : GoVal), sizeOf v < n → WFv v →
      ∀ pre, compareStruct ign pre (some v) (some v) = [] := by
  intro n
  induction n using Nat.strong_induction_on with
  | _ n IH =>
    intro v hv hwf pre
    cases v with
    | vStr s => simp [compareStruct, deref, isStructR, isMapR, isSliceR]
    | vInt m => simp [compareStruct, deref, isStructR, isMapR, isSliceR]
    | vBool b => simp [compareStruct, deref, isStructR, isMapR, isSliceR]
    | vPtr o =>
      cases o with
      | none => simp [compareStruct, deref, isStructR, isMapR, isSliceR]
      | some u =>
        have hwfu : WFv u := by simpa [WFv] using hwf
        by_cases hup : ∃ o2, u = GoVal.vPtr o2
        · obtain ⟨o2, rfl⟩ := hup
          simp [compareStruct, deref, isStructR, isMapR, isSliceR]
        · have hd2 : deref u = some u := by
            cases u with
            | vPtr o2 => exact absurd ⟨o2, rfl⟩ hup
            | vStr s => rfl
            | vInt m => rfl
            | vBool b => rfl
            | vStrMap m => rfl
            | vStruct fs => rfl
            | vSlice xs => rfl
          have hrw : compareStruct ign pre (some (.vPtr (some u))) (some (.vPtr (some u)))
              = compareStruct ign pre (some u) (some u) := by
            have hd1 : deref (GoVal.vPtr (some u)) = some u := rfl
            simp only [compareStruct, hd1, hd2]
          rw [hrw]
          have hs : sizeOf (GoVal.vPtr (some u)) = 2 + sizeOf u := by
            simp
            omega
          exact IH (sizeOf u + 1) (by omega) u (by omega) hwfu pre
    | vStrMap m =>
      have hnd : (m.map Prod.fst).Nodup := by simpa [WFv] using hwf
      have hM : isMapR (deref (GoVal.vStrMap m)) = true := by simp [deref, isMapR]
      have hS : isStructR (deref (GoVal.vStrMap m)) = false := by simp [deref, isStructR]
      simp only [compareStruct, hS, hM, deref, mapOf, Bool.false_eq_true, dite_false,
        if_true]
      exact compareMaps_self pre m hnd
    | vStruct fs =>
      have hh : (fs.map Prod.fst).Nodup ∧ WFfields fs := by simpa [WFv] using hwf
      have hS : isStructR (deref (GoVal.vStruct fs)) = true := by simp [deref, isStructR]
      simp only [compareStruct, hS, deref, fieldsOf, dite_true]
      refine cmpFields_nil ign pre fs fs (fun nm v hm => lookupS_self hm hh.1) ?_
      intro nm v hm p2
      have h1 := sizeOf_of_mem hm
      have h2 : sizeOf v < sizeOf (GoVal.vStruct fs) := by
        have : sizeOf ((nm, v) : String × GoVal) = 1 + sizeOf nm + sizeOf v := by simp
        simp
        omega
      have h3 : WFv v := WFfields_mem hh.2 hm
      have hc : sizeOf (GoVal.vStruct fs) = 1 + sizeOf fs := by simp
      exact IH (sizeOf v + 1) (by simp at hv; omega) v (by omega) h3 p2
    | vSlice xs =>
      have hwfe : WFelems xs := by simpa [WFv] using hwf
      have hS : isStructR (deref (GoVal.vSlice xs)) = false := by simp [deref, isStructR]
      have hM : isMapR (deref (GoVal.vSlice xs)) = false := by simp [deref, isMapR]
      have hL : isSliceR (deref (GoVal.vSlice xs)) = true := by simp [deref, isSliceR]
      simp only [compareStruct, hS, hM, hL, deref, elemsOf, Bool.false_eq_true,
        dite_false, if_false, dite_true]
      refine compareSlices_nil ign pre xs ?_
      intro fs hfs p2
      obtain ⟨x, hx, hef⟩ := structIndex_mem hfs
      have h1 := elemFields_sizeOf hef
      have h2 := sizeOf_of_mem hx
      have h3 : WFv (GoVal.vStruct fs) := elemFields_WF hef (WFelems_mem hwfe hx)
      have h4 : sizeOf (GoVal.vStruct fs) = 1 + sizeOf fs := by simp
      exact IH (sizeOf (GoVal.vStruct fs) + 1) (by simp at hv; omega)
        (GoVal.vStruct fs) (by omega) h3 p2

/-- Reflexivity of the part_010 struct comparison: comparing a wellformed
value with itself yields no drift. -/
theorem compareStruct_self (ign : String → Bool) (v : GoVal) (hwf : WFv v)
    (pre : String) : compareStruct ign pre (some v) (some v) = [] :=
  compareStruct_self_aux ign (sizeOf v + 1) v (Nat.lt_succ_self _) hwf pre

theorem WFelems_of_forall {l : List GoVal} (h : ∀ x ∈ l, WFv x) : WFelems l := by
  induction l with
  | nil => simp [WFelems]
  | cons hd tl ih =>
    rw [WFelems]
    exact ⟨h hd (List.mem_cons_self _ _), ih fun x hx => h x (List.mem_cons_of_mem _ hx)⟩

theorem WFv_optBool (o : Option Bool) : WFv (optBool o) := by
  cases o <;> simp [optBool, WFv]

theorem WFv_optInt (o : Option Int) : WFv (optInt o) := by
  cases o <;> simp [optInt, WFv]

theorem WFv_optStruct {α : Type} (enc : α → GoVal) (h : ∀ x, WFv (enc x))
    (o : Option α) : WFv (optStruct enc o) := by
  cases o with
  | none => simp [optStruct, WFv]
  | some x => simpa [optStruct, WFv] using h x

theorem WFv_encodeCS (c : CreditSpecification) : WFv (encodeCS c) := by
  simp [encodeCS, WFv, WFfields]

theorem WFv_encodeHib (h : HibernationOptions) : WFv (encodeHib h) := by
  simp [encodeHib, WFv, WFfields]

theorem WFv_encodeEnc (e : EnclaveOptions) : WFv (encodeEnc e) := by
  simp [encodeEnc, WFv, WFfields]

theorem WFv_encodeMO (m : MetadataOptions) : WFv (encodeMO m) := by
  simp [encodeMO, WFv, WFfields, WFv_optInt]

theorem WFv_encodeLT (l : LaunchTemplateSpecification) : WFv (encodeLT l) := by
  simp [encodeLT, WFv, WFfields]

theorem WFv_encodeTO (t : Timeouts) : WFv (encodeTO t) := by
  simp [encodeTO, WFv, WFfields]

theorem WFv_encodeEBS (d : EBSBlockDevice) : WFv (encodeEBS d) := by
  simp [encodeEBS, WFv, WFfields, WFv_optInt, WFv_optBool]

theorem WFv_encodeEph (d : EphemeralBlockDevice) : WFv (encodeEph d) := by
  simp [encodeEph, WFv, WFfields, WFv_optBool]

theorem WFv_encodeNI (d : NetworkInterface) : WFv (encodeNI d) := by
  simp [encodeNI, WFv, WFfields, WFv_optBool]

theorem WFv_sgVal (sg : SecurityGroup) : WFv (sgVal sg) := by
  simp [sgVal, WFv, WFfields]

theorem WFv_sgSlice (l : List SecurityGroup) : WFv (.vSlice (l.map sgVal)) := by
  rw [WFv]
  refine WFelems_of_forall fun x hx => ?_
  rcases List.mem_map.mp hx with ⟨sg, _, rfl⟩
  exact WFv_sgVal sg

theorem WFv_ptrSlice {α : Type} (enc : α → GoVal) (h : ∀ x, WFv (enc x))
    (l : List (Option α)) : WFv (ptrSlice enc l) := by
  rw [ptrSlice, WFv]
  refine WFelems_of_forall fun x hx => ?_
  rcases List.mem_map.mp hx with ⟨o, _, rfl⟩
  cases o with
  | none => simp [WFv]
  | some y => simpa [WFv] using h y

theorem WFv_optCS (o : Option CreditSpecification) : WFv (optStruct encodeCS o) :=
  WFv_optStruct encodeCS WFv_encodeCS o

theorem WFv_optHib (o : Option HibernationOptions) : WFv (optStruct encodeHib o) :=
  WFv_optStruct encodeHib WFv_encodeHib o

theorem WFv_optEnc (o : Option EnclaveOptions) : WFv (optStruct encodeEnc o) :=
  WFv_optStruct encodeEnc WFv_encodeEnc o

theorem WFv_optMO (o : Option MetadataOptions) : WFv (optStruct encodeMO o) :=
  WFv_optStruct encodeMO WFv_encodeMO o

theorem WFv_optLT (o : Option LaunchTemplateSpecification) : WFv (optStruct encodeLT o) :=
  WFv_optStruct encodeLT WFv_encodeLT o

theorem WFv_optTO (o : Option Timeouts) : WFv (optStruct encodeTO o) :=
  WFv_optStruct encodeTO WFv_encodeTO o

theorem WFv_ptrEBS (l : List (Option EBSBlockDevice)) : WFv (ptrSlice encodeEBS l) :=
  WFv_ptrSlice encodeEBS WFv_encodeEBS l

theorem WFv_ptrEph (l : List (Option EphemeralBlockDevice)) : WFv (ptrSlice encodeEph l) :=
  WFv_ptrSlice encodeEph WFv_encodeEph l

theorem WFv_ptrNI (l : List (Option NetworkInterface)) : WFv (ptrSlice encodeNI l) :=
  WFv_ptrSlice encodeNI WFv_encodeNI l

theorem WFelems_sgMap (l : List SecurityGroup) : WFelems (l.map sgVal) := by
  have := WFv_sgSlice l
  rwa [WFv] at this

theorem WFelems_ptrEBS (l : List (Option EBSBlockDevice)) :
    WFelems (l.map fun o => GoVal.vPtr (Option.map encodeEBS o)) := by
  have := WFv_ptrEBS l
  rwa [ptrSlice, WFv] at this

theorem WFelems_ptrEph (l : List (Option EphemeralBlockDevice)) :
    WFelems (l.map fun o => GoVal.vPtr (Option.map encodeEph o)) := by
  have := WFv_ptrEph l
  rwa [ptrSlice, WFv] at this

theorem WFelems_ptrNI (l : List (Option NetworkInterface)) :
    WFelems (l.map fun o => GoVal.vPtr (Option.map encodeNI o)) := by
  have := WFv_ptrNI l
  rwa [ptrSlice, WFv] at this

/-- Every encoded `InstanceConfig` is wellformed, given that its tags (as a
Go map) have distinct keys. -/
theorem WFv_encodeIC (c : InstanceConfig) (hnd : (c.tags.map Prod.fst).Nodup) :
    WFv (encodeIC c) := by
  rw [encodeIC, WFv]
  constructor
  · simp <;> decide
  · simp [WFfields, WFv, hnd, WFv_optBool, WFv_optInt, WFv_optCS, WFv_optHib,
      WFv_optEnc, WFv_optMO, WFv_optLT, WFv_optTO, WFv_sgSlice, WFv_ptrEBS,
      WFv_ptrEph, WFv_ptrNI, WFelems_sgMap, WFelems_ptrEBS, WFelems_ptrEph,
      WFelems_ptrNI]

theorem lookupS_perm {α : Type} {em em' : List (String × α)} (h : em.Perm em')
    (hnd : (em.map Prod.fst).Nodup) (k : String) : lookupS em k = lookupS em' k := by
  induction h with
  | nil => rfl
  | cons x h2 ih =>
    obtain ⟨kx, vx⟩ := x
    rw [List.map_cons, List.nodup_cons] at hnd
    by_cases hk : kx = k
    · simp [lookupS, hk]
    · simp only [lookupS, if_neg hk]
      exact ih hnd.2
  | swap x y l =>
    obtain ⟨kx, vx⟩ := x
    obtain ⟨ky, vy⟩ := y
    simp only [List.map_cons, List.nodup_cons, List.mem_cons, List.mem_map] at hnd
    have hne : ky ≠ kx := fun e => hnd.1 (Or.inl e)
    by_cases h1 : ky = k
    · subst h1
      simp [lookupS, hne.symm]
    · by_cases h2 : kx = k <;> simp [lookupS, h1, h2]
  | trans h1 h2 ih1 ih2 =>
    have hnd2 : _ := ((h1.map Prod.fst).nodup_iff).mp hnd
    rw [ih1 hnd, ih2 hnd2]

theorem mapInsert_self_mem {α : Type} (m : List (String × α)) (k : String) (v : α) :
    (k, v) ∈ mapInsert m k v := by
  induction m with
  | nil => simp [mapInsert]
  | cons hd tl ih =>
    obtain ⟨k2, v2⟩ := hd
    by_cases hk : k2 = k
    · subst hk
      simp [mapInsert]
    · simp only [mapInsert, if_neg hk]
      exact List.mem_cons_of_mem _ ih

theorem mapInsert_mem_preserve {α : Type} {m : List (String × α)} {k : String} {v : α}
    (hmem : (k, v) ∈ m) {k2 : String} (hne : k2 ≠ k) (v2 : α) :
    (k, v) ∈ mapInsert m k2 v2 := by
  induction m with
  | nil => simp at hmem
  | cons hd tl ih =>
    obtain ⟨k3, v3⟩ := hd
    by_cases hk : k3 = k2
    · subst hk
      rcases List.mem_cons.mp hmem with h2 | h2
      · injection h2 with h3 h4
        exact absurd h3.symm hne
      · simp only [mapInsert, if_pos rfl]
        exact List.mem_cons_of_mem _ h2
    · simp only [mapInsert, if_neg hk]
      rcases List.mem_cons.mp hmem with h2 | h2
      · exact h2 ▸ List.mem_cons_self _ _
      · exact List.mem_cons_of_mem _ (ih h2)

theorem sgIndex_mem_self {l : List SecurityGroup}
    (hnd : (l.map SecurityGroup.groupID).Nodup) {sg : SecurityGroup} (hmem : sg ∈ l) :
    (sg.groupID, sg) ∈ sgIndex l := by
  have key : ∀ (ll : List SecurityGroup) (acc : List (String × SecurityGroup)),
      (ll.map SecurityGroup.groupID).Nodup → ∀ g ∈ ll,
        (g.groupID, g) ∈ ll.foldl (fun m sg2 => mapInsert m sg2.groupID sg2) acc := by
    intro ll
    induction ll with
    | nil => intro acc _ g hg; simp at hg
    | cons hd rest ih =>
      intro acc hnd2 g hg
      rw [List.map_cons, List.nodup_cons] at hnd2
      rw [List.foldl_cons]
      rcases List.mem_cons.mp hg with h2 | h2
      · subst h2
        have hbase : (g.groupID, g) ∈ mapInsert acc g.groupID g := mapInsert_self_mem _ _ _
        have persist : ∀ (rl : List SecurityGroup) (acc2 : List (String × SecurityGroup)),
            g.groupID ∉ rl.map SecurityGroup.groupID →
            (g.groupID, g) ∈ acc2 →
            (g.groupID, g) ∈ rl.foldl (fun m sg2 => mapInsert m sg2.groupID sg2) acc2 := by
          intro rl
          induction rl with
          | nil => intro acc2 _ h3; simpa using h3
          | cons hd2 rest2 ih2 =>
            intro acc2 hni h3
            rw [List.map_cons] at hni
            rw [List.foldl_cons]
            refine ih2 _ (fun hh => hni (List.mem_cons_of_mem _ hh)) ?_
            exact mapInsert_mem_preserve h3
              (fun e => hni (List.mem_cons.mpr (Or.inl e.symm))) _
        exact persist rest _ hnd2.1 hbase
      · exact ih _ hnd2.2 g h2
  exact key l [] hnd sg hmem

theorem sgIndex_src {l : List SecurityGroup} {p : String × SecurityGroup}
    (h : p ∈ sgIndex l) : p.2 ∈ l ∧ p.1 = p.2.groupID := by
  have key : ∀ (ll : List SecurityGroup) (acc : List (String × SecurityGroup)),
      p ∈ ll.foldl (fun m sg2 => mapInsert m sg2.groupID sg2) acc →
      p ∈ acc ∨ (p.2 ∈ ll ∧ p.1 = p.2.groupID) := by
    intro ll
    induction ll with
    | nil => intro acc h2; exact Or.inl (by simpa using h2)
    | cons hd rest ih =>
      intro acc h2
      rw [List.foldl_cons] at h2
      rcases ih _ h2 with h3 | h3
      · obtain ⟨pk, pv⟩ := p
        rcases mapInsert_mem h3 with h4 | h4
        · exact Or.inl h4
        · injection h4 with h5 h6
          refine Or.inr ⟨?_, ?_⟩
          · simp only [h6]
            exact List.mem_cons_self _ _
          · simp [h5, h6]
      · exact Or.inr ⟨List.mem_cons_of_mem _ h3.1, h3.2⟩
  rcases key l [] h with h2 | h2
  · simp at h2
  · exact h2

/-- Identity-matched SecurityGroups comparison of two lists that are
permutations of each other (same groups, any order) finds no drift. -/
theorem sgCompare_perm_nil (pre : String) {as2 es : List SecurityGroup}
    (hperm : as2.Perm es) (hnd : (as2.map SecurityGroup.groupID).Nodup) :
    sgCompare pre as2 es = [] := by
  have hnde : (es.map SecurityGroup.groupID).Nodup :=
    ((hperm.map SecurityGroup.groupID).nodup_iff).mp hnd
  rw [sgCompare]
  rw [List.append_eq_nil]
  constructor
  · refine List.bind_eq_nil.mpr fun p hp => ?_
    obtain ⟨hsrc, hid⟩ := sgIndex_src hp
    have hmem : p.2 ∈ as2 := hperm.symm.subset hsrc
    have h1 : lookupS (sgIndex as2) p.1 = some p.2 := by
      rw [hid]
      exact lookupS_self (sgIndex_mem_self hnd hmem) (sgIndex_nodup as2)
    rw [h1]
    simp
  · refine List.bind_eq_nil.mpr fun p hp => ?_
    obtain ⟨hsrc, hid⟩ := sgIndex_src hp
    have hmem : p.2 ∈ es := hperm.subset hsrc
    have h1 : lookupS (sgIndex es) p.1 = some p.2 := by
      rw [hid]
      exact lookupS_self (sgIndex_mem_self hnde hmem) (sgIndex_nodup es)
    rw [h1]
    simp

theorem mapM_asSG_map_sgVal (l : List SecurityGroup) : (l.map sgVal).mapM asSG = some l := by
  induction l with
  | nil => rfl
  | cons sg rest ih =>
    obtain ⟨i, n⟩ := sg
    simp only [List.map_cons, List.mapM_cons, ih]
    rfl

theorem lookupS_mapInsert_isSome {α : Type} (m : List (String × α)) (k : String)
    (v : α) (k2 : String) :
    (lookupS (mapInsert m k v) k2).isSome = true ↔ k2 = k ∨ (lookupS m k2).isSome = true := by
  by_cases h : k = k2
  · subst h
    simp [lookupS_mapInsert_self]
  · rw [lookupS_mapInsert_ne m k k2 v h]
    have : ¬k2 = k := fun e => h e.symm
    simp [this]

theorem foldl_mapInsert_inv (desired : List Instance) :
    ∀ (k : String) (i : Instance),
      lookupS (desired.foldl (fun m inst => mapInsert m inst.id inst) []) k = some i →
      i.id = k := by
  have key : ∀ (l : List Instance) (acc : List (String × Instance)),
      (∀ p ∈ acc, (p : String × Instance).2.id = p.1) →
      ∀ p ∈ l.foldl (fun m inst => mapInsert m inst.id inst) acc,
        (p : String × Instance).2.id = p.1 := by
    intro l
    induction l with
    | nil => intro acc hacc p hp; exact hacc p (by simpa using hp)
    | cons hd rest ih =>
      intro acc hacc p hp
      rw [List.foldl_cons] at hp
      refine ih _ (fun q hq => ?_) p hp
      obtain ⟨qk, qv⟩ := q
      rcases mapInsert_mem hq with h2 | h2
      · exact hacc _ h2
      · injection h2 with h3 h4
        simp [h3, h4]
  intro k i h
  exact key desired [] (by simp) (k, i) (lookupS_mem h)

theorem batchLoop1_spec (dm : List (String × Instance))
    (hdm : ∀ k i, lookupS dm k = some i → i.id = k) :
    ∀ (acts : List Instance) (rep : List (String × MDriftReport)),
      ∃ out, batchLoop1 dm rep acts = .ok out ∧
        ∀ k, (lookupS out k).isSome = true ↔
          ((lookupS rep k).isSome = true ∨ k ∈ acts.map Instance.id) := by
  intro acts
  induction acts with
  | nil =>
    intro rep
    exact ⟨rep, rfl, fun k => by simp⟩
  | cons a rest ih =>
    intro rep
    rw [batchLoop1]
    match hd : lookupS dm a.id with
    | some d =>
      have hid : d.id = a.id := hdm _ _ hd
      have hok : ServiceDetectDrift (some a) (some d) = .ok (CompareInstances a d) := by
        rw [ServiceDetectDrift]
        simp [hid]
      simp only [hok]
      obtain ⟨out, h1, h2⟩ := ih (mapInsert rep a.id (CompareInstances a d))
      refine ⟨out, h1, fun k => ?_⟩
      rw [h2 k, lookupS_mapInsert_isSome]
      simp only [List.map_cons, List.mem_cons]
      tauto
    | none =>
      obtain ⟨out, h1, h2⟩ := ih (mapInsert rep a.id
        (AddDrift (NewDriftReport a.id)
          (NewDrift .removed "" none none
            "Instance exists in actual state but not in desired state")))
      refine ⟨out, by simpa using h1, fun k => ?_⟩
      rw [h2 k, lookupS_mapInsert_isSome]
      simp only [List.map_cons, List.mem_cons]
      tauto

theorem batchLoop2_spec :
    ∀ (des : List Instance) (rep : List (String × MDriftReport)) (k : String),
      (lookupS (batchLoop2 rep des) k).isSome = true ↔
        ((lookupS rep k).isSome = true ∨ k ∈ des.map Instance.id) := by
  intro des
  induction des with
  | nil => intro rep k; simp [batchLoop2]
  | cons d rest ih =>
    intro rep k
    rw [batchLoop2]
    by_cases hh : (lookupS rep d.id).isSome = true
    · rw [if_pos hh, ih]
      simp only [List.map_cons, List.mem_cons]
      constructor
      · tauto
      · rintro (h | h | h)
        · exact Or.inl h
        · subst h
          exact Or.inl hh
        · exact Or.inr h
    · rw [if_neg hh, ih, lookupS_mapInsert_isSome]
      simp only [List.map_cons, List.mem_cons]
      tauto

/-- A concrete `InstanceConfig` with empty optional fields (test fixture). -/
def cfgEmpty : InstanceConfig :=
  { instanceID := "i-1", instanceType := "", ami := "", keyName := "", tags := [],
    vpcID := "", subnetID := "", securityGroups := [], publicIPAddress := "",
    privateIPAddress := "", associatePublicIPAddress := none, sourceDestCheck := none,
    privateDNSName := "", publicDNSName := "", rootVolumeSize := 0, rootVolumeType := "",
    rootVolumeIops := 0, rootVolumeThroughput := 0, rootVolumeEncrypted := none,
    rootVolumeKMSKeyID := "", ebsOptimized := none, iamInstanceProfile := "",
    monitoring := none, availabilityZone := "", tenancy := "", hostID := "",
    placementGroup := "", cpuCoreCount := none, cpuThreadsPerCore := none,
    creditSpecification := none, hibernation := none, enclaveOptions := none,
    userData := "", metadataOptions := none, disableAPITermination := none,
    instanceInitiatedShutdownBehavior := "", launchTemplate := none, timeouts := none,
    ebsBlockDevices := [], ephemeralBlockDevices := [], networkInterfaces := [] }

/-- A concrete domain `Instance` (test fixture). -/
def instEmpty : Instance :=
  { id := "i-1", type := "t2.micro", ami := "", keyName := "", tags := [], vpcID := "",
    subnetID := "", securityGroups := [], publicIPAddress := "", privateIPAddress := "",
    associatePublicIPAddress := none, privateDNSName := "", publicDNSName := "",
    rootVolumeSize := 0, rootVolumeType := "", rootVolumeIops := 0,
    rootVolumeEncrypted := none, iamInstanceProfile := "", monitoring := none,
    availabilityZone := "", tenancy := "" }

/-- C4 (counterexample): at the concrete input `(some cfgEmpty, none)` — the
observed side present, the declared side absent — part_010 `DetectDrift`
emits one drift of kind MODIFIED (not ADDED) at the root path with neither
the observed nor the declared value attached, refuting the claim that the
present side's full value is attached to an Added drift. -/
theorem C4_counterexample :
    DetectDrift (some cfgEmpty) none =
      { instanceID := "i-1", hasDrift := true,
        drifts := [{ type := .modified, path := "",
                     description := "One of the configurations is nil" }] } ∧
    ∀ d ∈ (DetectDrift (some cfgEmpty) none).drifts,
      d.type ≠ DriftType.added ∧ d.actual = none := by
  decide

/-- C4 (amended): when exactly one configuration is nil, part_010
`DetectDrift` emits exactly one drift of kind MODIFIED at the root path
with neither value attached and description "One of the configurations is
nil"; the report's InstanceID is taken from the present side, and with both
nil the report is empty. -/
theorem C4_nil_behavior : ∀ c : InstanceConfig,
    DetectDrift (some c) none =
      { instanceID := c.instanceID, hasDrift := true,
        drifts := [{ type := .modified, path := "",
                     description := "One of the configurations is nil" }] } ∧
    DetectDrift none (some c) =
      { instanceID := c.instanceID, hasDrift := true,
        drifts := [{ type := .modified, path := "",
                     description := "One of the configurations is nil" }] } ∧
    DetectDrift none none = { instanceID := "", hasDrift := false, drifts := [] } :=
  fun _ => ⟨rfl, rfl, rfl⟩

/-- C8: the `hasDrift == (len(drifts) > 0)` invariant holds after each of
the report-producing operations: `NewDriftReport`, `AddDrift` (on any
report), and part_010's `DetectDrift`. -/
theorem C8_hasDrift_invariant :
    ∀ (idv : String) (r : MDriftReport) (d : MDrift) (a e : Option InstanceConfig),
    ((NewDriftReport idv).hasDrift = true ↔ (NewDriftReport idv).drifts ≠ []) ∧
    ((AddDrift r d).hasDrift = true ↔ (AddDrift r d).drifts ≠ []) ∧
    ((DetectDrift a e).hasDrift = true ↔ (DetectDrift a e).drifts ≠ []) := by
  intro idv r d a e
  refine ⟨by simp [NewDriftReport], by simp [AddDrift], ?_⟩
  match a, e with
  | none, none => simp [DetectDrift]
  | some x, none => simp [DetectDrift]
  | none, some y => simp [DetectDrift]
  | some x, some y =>
    simp only [DetectDrift, decide_eq_true_eq]
    rw [List.length_pos]

/-- C10: `DefaultDetectionService.DetectDrift` fails with `ErrInvalidInput`
exactly when an input is nil, with `ErrInstanceMismatch` exactly when both
are present with different IDs, and succeeds (returning the comparison's
report, which always exists) exactly when both are present with equal
IDs. -/
theorem C10_service_errors : ∀ oa od : Option Instance,
    (ServiceDetectDrift oa od = .error ErrInvalidInput ↔ oa = none ∨ od = none) ∧
    (ServiceDetectDrift oa od = .error ErrInstanceMismatch ↔
      ∃ a d, oa = some a ∧ od = some d ∧ a.id ≠ d.id) ∧
    ((∃ r, ServiceDetectDrift oa od = .ok r) ↔
      ∃ a d, oa = some a ∧ od = some d ∧ a.id = d.id) ∧
    (∀ a d, oa = some a → od = some d → a.id = d.id →
      ServiceDetectDrift oa od = .ok (CompareInstances a d)) := by
  intro oa od
  match oa, od with
  | none, none =>
    refine ⟨by simp [ServiceDetectDrift], by simp [ServiceDetectDrift, ErrInvalidInput, ErrInstanceMismatch], ?_, by simp⟩
    simp [ServiceDetectDrift]
  | none, some d =>
    refine ⟨by simp [ServiceDetectDrift], by simp [ServiceDetectDrift, ErrInvalidInput, ErrInstanceMismatch], ?_, by simp⟩
    simp [ServiceDetectDrift]
  | some a, none =>
    refine ⟨by simp [ServiceDetectDrift], by simp [ServiceDetectDrift, ErrInvalidInput, ErrInstanceMismatch], ?_, by simp⟩
    simp [ServiceDetectDrift]
  | some a, some d =>
    by_cases hid : a.id = d.id
    · refine ⟨?_, ?_, ?_, ?_⟩
      · simp [ServiceDetectDrift, hid]
      · simp only [ServiceDetectDrift, hid]
        simp [hid]
      · simp only [ServiceDetectDrift, hid]
        simp [hid]
      · intro a2 d2 h1 h2 h3
        injection h1 with h1
        injection h2 with h2
        subst h1; subst h2
        simp [ServiceDetectDrift, hid]
    · refine ⟨?_, ?_, ?_, ?_⟩
      · simp only [ServiceDetectDrift, if_neg, hid]
        simp [hid, ErrInvalidInput, ErrInstanceMismatch]
      · simp [ServiceDetectDrift, hid]
      · simp [ServiceDetectDrift, hid]
      · intro a2 d2 h1 h2 h3
        injection h1 with h1
        injection h2 with h2
        subst h1; subst h2
        exact absurd h3 hid

/-- C10 (witness): the success case at a concrete instance pair. -/
theorem C10_witness :
    ServiceDetectDrift (some instEmpty) (some instEmpty) =
      .ok (CompareInstances instEmpty instEmpty) :=
  (C10_service_errors (some instEmpty) (some instEmpty)).2.2.2 instEmpty instEmpty
    rfl rfl rfl

/-- C9 (evaluation at the failing input): for a batch with one desired-only
instance, `BatchDetectDrift` emits a drift of kind ADDED whose observed
(`Actual`) value is absent and whose declared (`Expected`) value is set —
the reverse of the claimed invariant (and of the code's own comment that
ADDED means "exists in actual but not in expected"). -/
theorem C9_kind_value_violation :
    BatchDetectDrift [] [instEmpty] =
      .ok [("i-1",
        { instanceID := "i-1", hasDrift := true,
          drifts := [{ type := .added, path := "", actual := none,
                       expected := some (.vPtr (some (encodeInstance instEmpty))),
                       description := "Instance exists in desired state but not in actual state" }] })] ∧
    ∀ m, BatchDetectDrift [] [instEmpty] = .ok m →
      ∀ p ∈ m, ∀ dr ∈ p.2.drifts, dr.type = DriftType.added ∧ dr.actual = none := by
  have h0 : BatchDetectDrift [] [instEmpty] =
      .ok [("i-1",
        { instanceID := "i-1", hasDrift := true,
          drifts := [{ type := .added, path := "", actual := none,
                       expected := some (.vPtr (some (encodeInstance instEmpty))),
                       description := "Instance exists in desired state but not in actual state" }] })] := rfl
  refine ⟨h0, ?_⟩
  intro m hm
  rw [h0] at hm
  injection hm with hm
  subst hm
  decide

/-- C2: `BatchDetectDrift` never fails as a whole, and its result maps
every requested resource ID — every ID appearing in the actual list or in
the desired list — to a report. -/
theorem C2_batch_total_coverage : ∀ actual desired : List Instance,
    ∃ m, BatchDetectDrift actual desired = .ok m ∧
      ∀ k : String, (lookupS m k).isSome = true ↔
        (k ∈ actual.map Instance.id ∨ k ∈ desired.map Instance.id) := by
  intro actual desired
  obtain ⟨out, h1, h2⟩ := batchLoop1_spec _ (foldl_mapInsert_inv desired) actual []
  refine ⟨batchLoop2 out desired, ?_, ?_⟩
  · simp [BatchDetectDrift, h1]
  · intro k
    rw [batchLoop2_spec, h2 k]
    simp [lookupS]

/-- C7: comparing a configuration with itself yields the drift-free report
(for part_010 `DetectDrift`), and the underlying comparison yields no drift
for any `ignoredFields` policy and at any path. -/
theorem C7_reflexivity : ∀ c : InstanceConfig, (c.tags.map Prod.fst).Nodup →
    DetectDrift (some c) (some c) =
      { instanceID := c.instanceID, hasDrift := false, drifts := [] } ∧
    ∀ (ign : String → Bool) (pre : String),
      compareStruct ign pre (some (encodeIC c)) (some (encodeIC c)) = [] := by
  intro c hnd
  have h := fun ign pre => compareStruct_self ign (encodeIC c) (WFv_encodeIC c hnd) pre
  refine ⟨?_, h⟩
  simp only [DetectDrift, h]
  rfl

/-- A tagged fixture for the C7 witness. -/
def cfgTagged : InstanceConfig :=
  { cfgEmpty with tags := [("Name", "x"), ("Env", "y")],
                  securityGroups := [⟨"sg-1", "web"⟩] }

/-- C7 (witness): reflexivity at a concrete configuration. -/
theorem C7_witness :
    ((cfgTagged.tags.map Prod.fst).Nodup) ∧
    DetectDrift (some cfgTagged) (some cfgTagged) =
      { instanceID := "i-1", hasDrift := false, drifts := [] } :=
  ⟨by decide, (C7_reflexivity cfgTagged (by decide)).1⟩

/-- C6: reordering the entries of a keyed collection — the Tags map, or the
SecurityGroups collection matched by GroupID — while keeping every identity
and value fixed yields zero drifts from the part_010 comparison. -/
theorem C6_identity_matching :
    ∀ (am em : List (String × String)) (ign : String → Bool)
      (sgsA sgsE : List SecurityGroup),
    am.Perm em → (am.map Prod.fst).Nodup →
    sgsA.Perm sgsE → (sgsA.map SecurityGroup.groupID).Nodup →
    compareMaps "Tags" am (some (.vStrMap em)) = [] ∧
    compareSlices ign "SecurityGroups" (sgsA.map sgVal)
      (some (.vSlice (sgsE.map sgVal))) = [] := by
  intro am em ign sgsA sgsE hp hnd hp2 hnd2
  have hnde : (em.map Prod.fst).Nodup := ((hp.map Prod.fst).nodup_iff).mp hnd
  constructor
  · rw [compareMaps, if_pos rfl, List.append_eq_nil]
    constructor
    · refine List.bind_eq_nil.mpr fun kv hkv => ?_
      obtain ⟨k, v⟩ := kv
      have h1 : lookupS am k = some v := by
        rw [lookupS_perm hp hnd k]
        exact lookupS_self hkv hnde
      rw [h1]
      simp
    · refine List.bind_eq_nil.mpr fun kv hkv => ?_
      obtain ⟨k, v⟩ := kv
      have h1 : lookupS em k = some v := by
        rw [← lookupS_perm hp hnd k]
        exact lookupS_self hkv hnd
      rw [h1]
      simp
  · rw [compareSlices, if_pos rfl]
    simp only [mapM_asSG_map_sgVal, asSGs]
    exact sgCompare_perm_nil _ hp2 hnd2

/-- C6 (witness): reordering a concrete two-entry Tags map and a concrete
two-group SecurityGroups collection yields zero drifts. -/
theorem C6_witness :
    compareMaps "Tags" [("a", "1"), ("b", "2")]
      (some (.vStrMap [("b", "2"), ("a", "1")])) = [] ∧
    compareSlices (fun _ => false) "SecurityGroups"
      ([⟨"sg-1", "web"⟩, ⟨"sg-2", "db"⟩].map sgVal)
      (some (.vSlice ([⟨"sg-2", "db"⟩, ⟨"sg-1", "web"⟩].map sgVal))) = [] :=
  C6_identity_matching [("a", "1"), ("b", "2")] [("b", "2"), ("a", "1")] (fun _ => false)
    [⟨"sg-1", "web"⟩, ⟨"sg-2", "db"⟩] [⟨"sg-2", "db"⟩, ⟨"sg-1", "web"⟩]
    (by decide) (by decide) (by decide) (by decide)

/-- C5 (counterexample): the Tags comparison visits expected-map entries in
Go's map iteration order, not a sorted order: two association lists that
describe the same expected map (they are permutations of each other)
produce the same drifts in different orders, so the output sequence is not
determined by the map contents, refuting byte-identical ordered output
under a stable sorted key order. -/
theorem C5_map_order_counterexample :
    ([("b", "2"), ("a", "1")] : List (String × String)).Perm [("a", "1"), ("b", "2")] ∧
    compareMaps "Tags" [("a", "x"), ("b", "y")] (some (.vStrMap [("a", "1"), ("b", "2")])) ≠
      compareMaps "Tags" [("a", "x"), ("b", "y")] (some (.vStrMap [("b", "2"), ("a", "1")])) ∧
    (compareMaps "Tags" [("a", "x"), ("b", "y")] (some (.vStrMap [("a", "1"), ("b", "2")]))).Perm
      (compareMaps "Tags" [("a", "x"), ("b", "y")] (some (.vStrMap [("b", "2"), ("a", "1")]))) := by
  decide

/-- The SecurityGroups comparison loops of part_010 lines 357–391 with the
iteration order of the two Go maps (`actualMap`, `expectedMap`, built on
lines 345–355) made explicit: `aM` and `eM` are the entry sequences in
which `range` visits them.  `sgCompare` is this walk at the model's
canonical (insertion) order: `sgCompare pre a e = sgCompareW pre (sgIndex
a) (sgIndex e)` holds definitionally (`sgCompareW_canonical`). -/
def sgCompareW (pre : String) (aM eM : List (String × SecurityGroup)) : List DetDrift :=
  (eM.flatMap fun p =>
    match lookupS aM p.1 with
    | some actualSG =>
      if actualSG.groupName ≠ p.2.groupName then
        [{ type := .modified, path := pre ++ "[" ++ p.1 ++ "].GroupName",
           actual := some (.vStr actualSG.groupName),
           expected := some (.vStr p.2.groupName),
           description := "Security group " ++ p.1 ++ " name has changed. Actual: "
             ++ actualSG.groupName ++ ", Expected: " ++ p.2.groupName }]
      else []
    | none =>
      [{ type := .removed, path := pre ++ "[" ++ p.1 ++ "]",
         expected := some (sgVal p.2),
         description := "Security group " ++ p.1
           ++ " is present in expected but missing in actual" }])
  ++ (aM.flatMap fun p =>
    if (lookupS eM p.1).isSome then []
    else
      [{ type := .added, path := pre ++ "[" ++ p.1 ++ "]",
         actual := some (sgVal p.2),
         description := "Security group " ++ p.1
           ++ " is present in actual but missing in expected" }])

theorem sgCompareW_canonical (pre : String) (a e : List SecurityGroup) :
    sgCompare pre a e = sgCompareW pre (sgIndex a) (sgIndex e) := rfl

/-- Identity-index lookup is invariant under a permutation of the index
when the identities are distinct (the index models a Go map). -/
theorem lookupIdx_perm {idx idx' : List (List (String × GoVal))} (h : idx.Perm idx')
    (hnd : (idx.map idOf).Nodup) (k : String) : lookupIdx idx k = lookupIdx idx' k := by
  induction h with
  | nil => rfl
  | cons x h2 ih =>
    rw [List.map_cons, List.nodup_cons] at hnd
    by_cases hk : idOf x = k
    · simp [lookupIdx, hk]
    · simp only [lookupIdx, if_neg hk]
      exact ih hnd.2
  | swap x y l =>
    simp only [List.map_cons, List.nodup_cons, List.mem_cons, List.mem_map] at hnd
    have hne : idOf y ≠ idOf x := fun e2 => hnd.1 (Or.inl e2)
    by_cases h1 : idOf y = k
    · subst h1
      simp [lookupIdx, hne.symm]
    · by_cases h2 : idOf x = k <;> simp [lookupIdx, h1, h2]
  | trans h1 h2 ih1 ih2 =>
    have hnd2 := ((h1.map idOf).nodup_iff).mp hnd
    rw [ih1 hnd, ih2 hnd2]

/-- `cmpMatched` written as one pass over its walk list. -/
theorem cmpMatched_eq_flatMap (ign : String → Bool) (pre : String)
    (aIdx : List (List (String × GoVal))) (eW : List (List (String × GoVal))) :
    cmpMatched ign pre aIdx eW =
      eW.flatMap fun eFs =>
        if (lookupIdx aIdx (idOf eFs)).isSome then
          compareStruct ign (pre ++ "[" ++ idOf eFs ++ "]")
            (some (.vStruct ((lookupIdx aIdx (idOf eFs)).getD [])))
            (some (.vStruct eFs))
        else
          [{ type := .removed, path := pre ++ "[" ++ idOf eFs ++ "]",
             expected := some (.vStruct eFs),
             description := "Item with ID " ++ idOf eFs
               ++ " is present in expected but missing in actual" }] := by
  induction eW with
  | nil => simp [cmpMatched]
  | cons eFs rest ih =>
    simp only [cmpMatched, List.flatMap_cons, dite_eq_ite, ih]

/-- The Tags comparison is stable (up to permutation) under reordering the
walks of BOTH maps: the expected map's walk (the modified/removed loop) and
the actual map's walk (the added loop). -/
theorem compareMaps_tags_perm {am am' em em' : List (String × String)}
    (ham : am.Perm am') (hem : em.Perm em')
    (hndam : (am.map Prod.fst).Nodup) (hndem : (em.map Prod.fst).Nodup) :
    (compareMaps "Tags" am (some (.vStrMap em))).Perm
      (compareMaps "Tags" am' (some (.vStrMap em'))) := by
  have hfa : lookupS am = lookupS am' := funext fun k => lookupS_perm ham hndam k
  have hfe : lookupS em = lookupS em' := funext fun k => lookupS_perm hem hndem k
  rw [compareMaps, compareMaps, if_pos rfl, if_pos rfl]
  simp only [hfa, hfe]
  exact List.Perm.append (hem.flatMap_right _) (ham.flatMap_right _)

/-- The SecurityGroups loops, run over any iteration orders of the two
GroupID-keyed maps, produce a permutation of `sgCompare`'s canonical-order
output. -/
theorem sgCompareW_perm (pre : String) {aSGs eSGs : List SecurityGroup}
    {aM eM : List (String × SecurityGroup)}
    (ha : aM.Perm (sgIndex aSGs)) (he : eM.Perm (sgIndex eSGs)) :
    (sgCompareW pre aM eM).Perm (sgCompare pre aSGs eSGs) := by
  have hnda : (aM.map Prod.fst).Nodup := ((ha.map Prod.fst).nodup_iff).mpr (sgIndex_nodup aSGs)
  have hnde : (eM.map Prod.fst).Nodup := ((he.map Prod.fst).nodup_iff).mpr (sgIndex_nodup eSGs)
  have hfa : lookupS aM = lookupS (sgIndex aSGs) := funext fun k => lookupS_perm ha hnda k
  have hfe : lookupS eM = lookupS (sgIndex eSGs) := funext fun k => lookupS_perm he hnde k
  simp only [sgCompareW, sgCompare, hfa, hfe]
  exact List.Perm.append (he.flatMap_right _) (ha.flatMap_right _)

/-- The struct-slice identity loops (`cmpMatched` and the added loop), run
over any iteration orders of the two identity indexes, produce a
permutation of `compareStructSlices`' canonical-order output. -/
theorem compareStructSlices_perm (ign : String → Bool) (pre : String)
    {aElems eElems : List GoVal} {aIdx eIdx : List (List (String × GoVal))}
    (ha : aIdx.Perm (structIndex aElems)) (he : eIdx.Perm (structIndex eElems)) :
    (cmpMatched ign pre aIdx eIdx ++ aIdx.flatMap fun aFs =>
        if (lookupIdx eIdx (idOf aFs)).isSome then ([] : List DetDrift)
        else
          [{ type := .added, path := pre ++ "[" ++ idOf aFs ++ "]",
             actual := some (.vStruct aFs),
             description := "Item with ID " ++ idOf aFs
               ++ " is present in actual but missing in expected" }]).Perm
      (compareStructSlices ign pre aElems eElems) := by
  have hnda : (aIdx.map idOf).Nodup :=
    ((ha.map idOf).nodup_iff).mpr (structIndex_idOf_nodup aElems)
  have hnde : (eIdx.map idOf).Nodup :=
    ((he.map idOf).nodup_iff).mpr (structIndex_idOf_nodup eElems)
  have hfa : lookupIdx aIdx = lookupIdx (structIndex aElems) :=
    funext fun k => lookupIdx_perm ha hnda k
  have hfe : lookupIdx eIdx = lookupIdx (structIndex eElems) :=
    funext fun k => lookupIdx_perm he hnde k
  simp only [compareStructSlices, cmpMatched_eq_flatMap, hfa, hfe]
  exact List.Perm.append (he.flatMap_right _) (ha.flatMap_right _)

set_option maxHeartbeats 1600000 in
/-- A whole `DetectDrift` run with the two input Tags maps fed in any
iteration orders produces a permutation of the canonical run's drifts. -/
theorem DetectDrift_tags_perm (a e : InstanceConfig) (ta te : List (String × String))
    (hta : ta.Perm a.tags) (hte : te.Perm e.tags)
    (hna : (a.tags.map Prod.fst).Nodup) (hnee : (e.tags.map Prod.fst).Nodup) :
    (DetectDrift (some { a with tags := ta }) (some { e with tags := te })).drifts.Perm
      (DetectDrift (some a) (some e)).drifts := by
  have hndta : (ta.map Prod.fst).Nodup := ((hta.map Prod.fst).nodup_iff).mpr hna
  have hndte : (te.map Prod.fst).Nodup := ((hte.map Prod.fst).nodup_iff).mpr hnee
  have hT : ∀ (m m' : List (String × String)),
      compareStruct newDetectorIgnored "Tags" (some (.vStrMap m)) (some (.vStrMap m')) =
        compareMaps "Tags" m (some (.vStrMap m')) := by
    intro m m'
    simp [compareStruct, deref, isStructR, isMapR, mapOf]
  have hig : ∀ s, newDetectorIgnored s = false := fun _ => rfl
  have hperm : (compareMaps "Tags" ta (some (.vStrMap te))).Perm
      (compareMaps "Tags" a.tags (some (.vStrMap e.tags))) :=
    compareMaps_tags_perm hta hte hndta hndte
  simp only [DetectDrift]
  simp only [compareStruct, encodeIC, deref, isStructR, fieldsOf]
  simp [cmpFields, fieldByName, lookupS, hig, hT]
  exact List.Perm.append_left _ (List.Perm.append_left _ (List.Perm.append_left _
    (List.Perm.append_left _ (hperm.append_right _))))

/-- C5 (amended): part_010 sorts no keys; Go maps are walked in Go's
(unspecified, per-run randomized) iteration order, so repeated runs on
identical inputs are deterministic only up to permutation of the
map-walk-dependent segments of the output.  Proved here: (1) a whole
`DetectDrift` run with the two input Tags maps fed in any iteration orders
produces a permutation of the canonical run's drift list; (2) the Tags
comparison is permutation-stable when the walks of BOTH the expected map
(the modified/removed loop) and the actual map (the added loop) are
reordered; (3) the SecurityGroups loops run over any iteration orders of
the two GroupID-keyed maps (`sgCompareW`, whose canonical-order instance is
`sgCompare`) produce a permutation of `sgCompare`'s output; (4) the
struct-slice identity loops (`cmpMatched` plus the added loop) run over any
iteration orders of the two identity indexes produce a permutation of
`compareStructSlices`' output. -/
theorem C5_multiset_determinism :
    (∀ (a e : InstanceConfig) (ta te : List (String × String)),
      ta.Perm a.tags → te.Perm e.tags →
      (a.tags.map Prod.fst).Nodup → (e.tags.map Prod.fst).Nodup →
      (DetectDrift (some { a with tags := ta }) (some { e with tags := te })).drifts.Perm
        (DetectDrift (some a) (some e)).drifts) ∧
    (∀ (am am' em em' : List (String × String)),
      am.Perm am' → em.Perm em' →
      (am.map Prod.fst).Nodup → (em.map Prod.fst).Nodup →
      (compareMaps "Tags" am (some (.vStrMap em))).Perm
        (compareMaps "Tags" am' (some (.vStrMap em')))) ∧
    (∀ (pre : String) (aSGs eSGs : List SecurityGroup)
       (aM eM : List (String × SecurityGroup)),
      aM.Perm (sgIndex aSGs) → eM.Perm (sgIndex eSGs) →
      (sgCompareW pre aM eM).Perm (sgCompare pre aSGs eSGs)) ∧
    (∀ (ign : String → Bool) (pre : String) (aElems eElems : List GoVal)
       (aIdx eIdx : List (List (String × GoVal))),
      aIdx.Perm (structIndex aElems) → eIdx.Perm (structIndex eElems) →
      (cmpMatched ign pre aIdx eIdx ++ aIdx.flatMap fun aFs =>
          if (lookupIdx eIdx (idOf aFs)).isSome then ([] : List DetDrift)
          else
            [{ type := .added, path := pre ++ "[" ++ idOf aFs ++ "]",
               actual := some (.vStruct aFs),
               description := "Item with ID " ++ idOf aFs
                 ++ " is present in actual but missing in expected" }]).Perm
        (compareStructSlices ign pre aElems eElems)) :=
  ⟨fun a e ta te h1 h2 h3 h4 => DetectDrift_tags_perm a e ta te h1 h2 h3 h4,
   fun _ _ _ _ h1 h2 h3 h4 => compareMaps_tags_perm h1 h2 h3 h4,
   fun pre _ _ _ _ h1 h2 => sgCompareW_perm pre h1 h2,
   fun ign pre _ _ _ _ h1 h2 => compareStructSlices_perm ign pre h1 h2⟩

/-- C5 (witness): the whole-run conjunct at a concrete configuration whose
two-entry Tags map is fed in the two possible iteration orders. -/
theorem C5_witness :
    (DetectDrift (some { cfgTagged with tags := [("Env", "y"), ("Name", "x")] })
        (some { cfgTagged with tags := [("Name", "x"), ("Env", "y")] })).drifts.Perm
      (DetectDrift (some cfgTagged) (some cfgTagged)).drifts :=
  C5_multiset_determinism.1 cfgTagged cfgTagged [("Env", "y"), ("Name", "x")]
    [("Name", "x"), ("Env", "y")] (by decide) (by decide) (by decide) (by decide)

theorem ddWalk_enum (ign2 : String → Bool) (pre : String) :
    ∀ (axs : List GoVal) (i : Nat) (exs : List GoVal),
      ddWalk ign2 pre i axs exs =
        (List.enumFrom i (axs.zip exs)).flatMap
          (fun p => ddCompareStruct ign2 (pre ++ "[" ++ toString p.1 ++ "]") p.2.1 p.2.2) := by
  intro axs
  induction axs with
  | nil =>
    intro i exs
    simp [ddWalk]
  | cons av arest ih =>
    intro i exs
    match exs with
    | [] => simp [ddWalk]
    | ev :: erest =>
      rw [ddWalk, ih (i + 1) erest]
      simp [List.enumFrom, List.zip]

/-- C1 (amended): the domain `DriftDetector.compareSlices` compares
positionally (index by index at `path[i]`) only when the two slices have
the same length; when the lengths differ it emits exactly one MODIFIED
"Length mismatch" drift at the slice's own path, carrying both whole
slices, with no per-index Added/Removed drifts at all. -/
theorem C1_slice_comparison : ∀ (ign2 : String → Bool) (pre : String)
    (axs exs : List GoVal),
    ddCompareSlices ign2 pre axs exs =
      if axs.length = exs.length then
        (List.enumFrom 0 (axs.zip exs)).flatMap
          (fun p => ddCompareStruct ign2 (pre ++ "[" ++ toString p.1 ++ "]") p.2.1 p.2.2)
      else
        [NewDrift .modified pre (some (.vSlice axs)) (some (.vSlice exs)) "Length mismatch"] := by
  intro ign2 pre axs exs
  rw [ddCompareSlices]
  by_cases h : axs.length = exs.length
  · rw [if_neg (by simpa using h), if_pos h, ddWalk_enum]
  · rw [if_pos (by simpa using h), if_neg h]

/-- Fixture: two instances that differ only in their SecurityGroups lists,
of different lengths. -/
def instSG1 : Instance := { instEmpty with securityGroups := [⟨"sg-1", "web"⟩] }

def instSG2 : Instance :=
  { instEmpty with securityGroups := [⟨"sg-1", "web"⟩, ⟨"sg-2", "db"⟩] }

/-- C1 (counterexample): comparing two instances whose SecurityGroups lists
have lengths 1 and 2, the domain detector emits exactly one MODIFIED
"Length mismatch" drift at the whole-list path `.SecurityGroups` — a single
whole-list drift for the length mismatch — and no Added or Removed drift at
`.SecurityGroups[1]` for the index beyond the shorter length, refuting the
claim. -/
theorem C1_counterexample :
    CompareInstances instSG1 instSG2 =
      { instanceID := "i-1", hasDrift := true,
        drifts := [NewDrift .modified ".SecurityGroups"
          (some (.vSlice [sgVal ⟨"sg-1", "web"⟩]))
          (some (.vSlice [sgVal ⟨"sg-1", "web"⟩, sgVal ⟨"sg-2", "db"⟩]))
          "Length mismatch"] } ∧
    ∀ d ∈ (CompareInstances instSG1 instSG2).drifts,
      d.path ≠ ".SecurityGroups[1]" ∧ d.type ≠ DriftType.added ∧
        d.type ≠ DriftType.removed := by
  have h0 : CompareInstances instSG1 instSG2 =
      { instanceID := "i-1", hasDrift := true,
        drifts := [NewDrift .modified ".SecurityGroups"
          (some (.vSlice [sgVal ⟨"sg-1", "web"⟩]))
          (some (.vSlice [sgVal ⟨"sg-1", "web"⟩, sgVal ⟨"sg-2", "db"⟩]))
          "Length mismatch"] } := by
    simp [CompareInstances, instSG1, instSG2, instEmpty, encodeInstance, sgVal,
      ddCompareStruct, ddCmpFields, ddCompareMaps, ddCompareSlices, ddWalk, kindOf,
      trimDot, lookupS, NewDrift, AddDrift, NewDriftReport, newDriftDetectorIgnored,
      optBool, optInt]
  refine ⟨h0, ?_⟩
  rw [h0]
  decide

/-- Fixture: `cfgEmpty` with a CreditSpecification present. -/
def cfgCS : InstanceConfig := { cfgEmpty with creditSpecification := some ⟨"standard"⟩ }

set_option maxHeartbeats 1600000 in
/-- C3 (amended): when a struct-pointer field (CreditSpecification) is
present on the observed side and nil on the declared side, part_010's
comparison does not stop at the field's own path: it recurses into the
observed subtree and reports each field underneath individually — here one
ADDED drift at `CreditSpecification.CPUCredits` — and emits no drift at the
field's own path `CreditSpecification`. -/
theorem C3_absent_subtree : ∀ (base : InstanceConfig) (cs : CreditSpecification),
    (base.tags.map Prod.fst).Nodup →
    (DetectDrift (some { base with creditSpecification := some cs })
        (some { base with creditSpecification := none })).drifts =
      [{ type := .added, path := "CreditSpecification.CPUCredits",
         actual := some (.vStr cs.cpuCredits),
         description := "Field CreditSpecification.CPUCredits is present in actual but missing in expected" }] := by
  intro base cs hnd
  have hstr : ∀ p s, compareStruct newDetectorIgnored p (some (.vStr s)) (some (.vStr s)) = [] :=
    fun p s => compareStruct_self _ _ (by rw [WFv]; trivial) p
  have hint : ∀ p n, compareStruct newDetectorIgnored p (some (.vInt n)) (some (.vInt n)) = [] :=
    fun p n => compareStruct_self _ _ (by rw [WFv]; trivial) p
  have hob : ∀ p o, compareStruct newDetectorIgnored p (some (optBool o)) (some (optBool o)) = [] :=
    fun p o => compareStruct_self _ _ (WFv_optBool o) p
  have hoi : ∀ p o, compareStruct newDetectorIgnored p (some (optInt o)) (some (optInt o)) = [] :=
    fun p o => compareStruct_self _ _ (WFv_optInt o) p
  have hmapT : ∀ p, compareStruct newDetectorIgnored p (some (.vStrMap base.tags))
      (some (.vStrMap base.tags)) = [] :=
    fun p => compareStruct_self _ _ (by rw [WFv]; exact hnd) p
  have hsg : ∀ p, compareStruct newDetectorIgnored p
      (some (.vSlice (base.securityGroups.map sgVal)))
      (some (.vSlice (base.securityGroups.map sgVal))) = [] :=
    fun p => compareStruct_self _ _ (WFv_sgSlice base.securityGroups) p
  have hhib : ∀ p o, compareStruct newDetectorIgnored p (some (optStruct encodeHib o))
      (some (optStruct encodeHib o)) = [] :=
    fun p o => compareStruct_self _ _ (WFv_optHib o) p
  have henc : ∀ p o, compareStruct newDetectorIgnored p (some (optStruct encodeEnc o))
      (some (optStruct encodeEnc o)) = [] :=
    fun p o => compareStruct_self _ _ (WFv_optEnc o) p
  have hmo : ∀ p o, compareStruct newDetectorIgnored p (some (optStruct encodeMO o))
      (some (optStruct encodeMO o)) = [] :=
    fun p o => compareStruct_self _ _ (WFv_optMO o) p
  have hlt : ∀ p o, compareStruct newDetectorIgnored p (some (optStruct encodeLT o))
      (some (optStruct encodeLT o)) = [] :=
    fun p o => compareStruct_self _ _ (WFv_optLT o) p
  have hto : ∀ p o, compareStruct newDetectorIgnored p (some (optStruct encodeTO o))
      (some (optStruct encodeTO o)) = [] :=
    fun p o => compareStruct_self _ _ (WFv_optTO o) p
  have hebs : ∀ p l, compareStruct newDetectorIgnored p (some (ptrSlice encodeEBS l))
      (some (ptrSlice encodeEBS l)) = [] :=
    fun p l => compareStruct_self _ _ (WFv_ptrEBS l) p
  have heph : ∀ p l, compareStruct newDetectorIgnored p (some (ptrSlice encodeEph l))
      (some (ptrSlice encodeEph l)) = [] :=
    fun p l => compareStruct_self _ _ (WFv_ptrEph l) p
  have hni : ∀ p l, compareStruct newDetectorIgnored p (some (ptrSlice encodeNI l))
      (some (ptrSlice encodeNI l)) = [] :=
    fun p l => compareStruct_self _ _ (WFv_ptrNI l) p
  have hcs : compareStruct newDetectorIgnored "CreditSpecification"
      (some (optStruct encodeCS (some cs))) (some (optStruct encodeCS none)) =
      [{ type := .added, path := "CreditSpecification.CPUCredits",
         actual := some (.vStr cs.cpuCredits),
         description := "Field CreditSpecification.CPUCredits is present in actual but missing in expected" }] := by
    simp [compareStruct, cmpFields, optStruct, encodeCS, deref, isStructR, isMapR,
      isSliceR, fieldsOf, fieldByName, newDetectorIgnored]
  simp only [DetectDrift]
  simp only [compareStruct, encodeIC, deref, isStructR, fieldsOf]
  simp [cmpFields, fieldByName, lookupS, newDetectorIgnored, hstr, hint, hob, hoi,
    hmapT, hsg, hhib, henc, hmo, hlt, hto, hebs, heph, hni, hcs]

set_option maxHeartbeats 1600000 in
/-- C3 (counterexample): for `cfgCS` (CreditSpecification present, CPUCredits
"standard") against `cfgEmpty` (CreditSpecification nil), part_010's
DetectDrift does NOT report the absence at the subtree root and stop: the
report contains exactly one drift, at the nested path
`CreditSpecification.CPUCredits`, and no drift at `CreditSpecification`. -/
theorem C3_counterexample :
    (DetectDrift (some cfgCS) (some cfgEmpty)).drifts =
      [{ type := .added, path := "CreditSpecification.CPUCredits",
         actual := some (.vStr "standard"),
         description := "Field CreditSpecification.CPUCredits is present in actual but missing in expected" }] ∧
    ∀ d ∈ (DetectDrift (some cfgCS) (some cfgEmpty)).drifts,
      d.path ≠ "CreditSpecification" := by
  have h : (DetectDrift (some cfgCS) (some cfgEmpty)).drifts =
      [{ type := .added, path := "CreditSpecification.CPUCredits",
         actual := some (.vStr "standard"),
         description := "Field CreditSpecification.CPUCredits is present in actual but missing in expected" }] := by
    simp [DetectDrift, cfgCS, cfgEmpty, encodeIC, optBool, optInt, optStruct, ptrSlice,
      sgVal, encodeCS, compareStruct, cmpFields, compareMaps, compareSlices,
      compareStructSlices, cmpMatched, deref, isStructR, isMapR, isSliceR, isStructHead,
      fieldsOf, mapOf, elemsOf, fieldByName, lookupS, newDetectorIgnored, asSG, asSGs,
      List.mapM.loop, sgCompare, sgIndex, showV]
  refine ⟨h, ?_⟩
  rw [h]
  simp

/-- Witness for C3_absent_subtree: at `cfgEmpty` with CPUCredits "standard",
the hypotheses hold and the conclusion evaluates. -/
theorem C3_witness :
    (cfgEmpty.tags.map Prod.fst).Nodup ∧
    (DetectDrift (some { cfgEmpty with creditSpecification := some ⟨"standard"⟩ })
        (some { cfgEmpty with creditSpecification := none })).drifts =
      [{ type := .added, path := "CreditSpecification.CPUCredits",
         actual := some (.vStr "standard"),
         description := "Field CreditSpecification.CPUCredits is present in actual but missing in expected" }] :=
  ⟨by decide, C3_absent_subtree cfgEmpty ⟨"standard"⟩ (by decide)⟩
